import Mathlib

/-!
Verification of the `DatabaseULog` persistence engine (`pyulog/db.py`).

The sqlite database is modelled as a `Store`: one Lean list of rows per
table, in insertion order, together with the `PRAGMA user_version`
counter and the next-rowid counter of every table that the code reads
back through `cur.lastrowid`.  A `SELECT` without an `ORDER BY` clause
returns rows in insertion (rowid) order; `ORDER BY` is modelled by a
stable insertion sort on the selected key.  The in-memory
`DatabaseULog` object is modelled as a `Handle`; Python dicts are
modelled as association lists in insertion order, with Python's
assignment semantics (update in place if the key exists, append
otherwise).  SHA-256 itself is external to the model: a digest is
represented by the exact byte sequence fed to the hash, so two digests
are equal exactly when the hashed byte streams are equal.
-/

set_option maxHeartbeats 1600000

namespace PyulogDb

/-- Scalar cell values stored in and retrieved from the sqlite database.
Integers and strings are stored exactly; IEEE-754 doubles are carried
opaquely by their 64-bit pattern, which the substrate stores and returns
unchanged. -/
inductive Val where
  | int : Int → Val
  | str : String → Val
  | real : Nat → Val
deriving DecidableEq, Repr

/-- One `_FieldData` entry of a dataset: field name and declared type string. -/
structure FieldData where
  field_name : String
  type_str : String
deriving DecidableEq, Repr

/-- One dataset (`ULog.Data` / `DatabaseULog.DatabaseData`).  `data` is the
dict from field name to the decoded value array; the packed `tobytes`
blob of an array is modelled by the value list itself, since for a fixed
dtype `np.frombuffer` inverts `tobytes` exactly. -/
structure DataSet where
  name : String
  multi_id : Nat
  msg_id : Nat
  timestamp_idx : Nat
  field_data : List FieldData
  data : List (String × List Val)
deriving DecidableEq, Repr

/-- One dropout entry (`ULog.MessageDropout`). -/
structure MessageDropout where
  timestamp : Nat
  duration : Nat
deriving DecidableEq, Repr

/-- One plain logged message (`ULog.MessageLogging`). -/
structure MessageLogging where
  log_level : Nat
  timestamp : Nat
  message : String
deriving DecidableEq, Repr

/-- One tagged logged message (`ULog.MessageLoggingTagged`). -/
structure MessageLoggingTagged where
  log_level : Nat
  tag : Nat
  timestamp : Nat
  message : String
deriving DecidableEq, Repr

/-- One message format (`ULog.MessageFormat`): name plus the ordered
`(type token, array size, field name)` triples. -/
structure MessageFormat where
  name : String
  fields : List (String × Nat × String)
deriving DecidableEq, Repr

/-- The in-memory `DatabaseULog` object: the inherited `ULog` attributes
plus `_pk`, `_sha256sum` and `_lazy_loaded`.  Dicts are association
lists in insertion order. -/
structure Handle where
  pk : Option Nat
  sha256sum : Option (List Nat)
  file_version : Nat
  start_timestamp : Nat
  last_timestamp : Nat
  compat_flags : List Nat
  incompat_flags : List Nat
  sync_seq_cnt : Nat
  has_sync : Bool
  appended_offsets : List Nat
  data_list : List DataSet
  dropouts : List MessageDropout
  logged_messages : List MessageLogging
  logged_messages_tagged : List (Nat × List MessageLoggingTagged)
  message_formats : List (String × MessageFormat)
  msg_info_dict : List (String × Val)
  msg_info_dict_types : List (String × String)
  msg_info_multiple_dict : List (String × List (List Val))
  msg_info_multiple_dict_types : List (String × String)
  initial_parameters : List (String × Val)
  default_parameters : List (Nat × List (String × Val))
  changed_parameters : List (Nat × String × Val)
  lazy_loaded : Bool
deriving DecidableEq, Repr

/-- A handle as `ULog.__init__(None)` leaves it: every collection empty.
`pk`, `sha256sum` and `lazy_loaded` are filled in by the caller. -/
def emptyHandle (pk : Option Nat) (lazy : Bool) : Handle where
  pk := pk
  sha256sum := none
  file_version := 0
  start_timestamp := 0
  last_timestamp := 0
  compat_flags := []
  incompat_flags := []
  sync_seq_cnt := 0
  has_sync := false
  appended_offsets := []
  data_list := []
  dropouts := []
  logged_messages := []
  logged_messages_tagged := []
  message_formats := []
  msg_info_dict := []
  msg_info_dict_types := []
  msg_info_multiple_dict := []
  msg_info_multiple_dict_types := []
  initial_parameters := []
  default_parameters := []
  changed_parameters := []
  lazy_loaded := lazy

/-- Python dict lookup `d[k]` as an option. -/
def dictGet? {α : Type} [DecidableEq α] {β : Type}
    (l : List (α × β)) (k : α) : Option β :=
  (l.find? (fun p => p.1 = k)).map (fun p => p.2)

/-- Python dict assignment `d[k] = v`: update in place if `k` is present
(keeping its position), append otherwise. -/
def dictSet {α : Type} [DecidableEq α] {β : Type} :
    List (α × β) → α → β → List (α × β)
  | [], k, v => [(k, v)]
  | (k', v') :: rest, k, v =>
    if k' = k then (k, v) :: rest else (k', v') :: dictSet rest k v

/-- Python membership test `k in d`. -/
def dictMem {α : Type} [DecidableEq α] {β : Type}
    (l : List (α × β)) (k : α) : Bool :=
  l.any (fun p => p.1 = k)

/-- Stable insertion of one element into a list sorted by `le`. -/
def insertLe {α : Type} (le : α → α → Bool) (a : α) : List α → List α
  | [] => [a]
  | b :: bs => if le a b then a :: b :: bs else b :: insertLe le a bs

/-- Stable insertion sort: the model of an SQL `ORDER BY` clause. -/
def sortByLe {α : Type} (le : α → α → Bool) : List α → List α
  | [] => []
  | a :: as => insertLe le a (sortByLe le as)

/-- One row of the `ULog` table. -/
structure ULogRow where
  id : Nat
  file_version : Nat
  start_timestamp : Nat
  last_timestamp : Nat
  compat_flags : String
  incompat_flags : String
  sync_count : Nat
  has_sync : Bool
  sha256sum : Option (List Nat)
deriving DecidableEq, Repr

/-- One row of the `ULogAppendedOffsets` table. -/
structure OffsetRow where
  series_index : Nat
  offset : Nat
  ulog_id : Nat
deriving DecidableEq, Repr

/-- One row of the `ULogDataset` table (spelled `ULogDataSet` in the
insert statement; sqlite identifiers are case-insensitive). -/
structure DatasetRow where
  id : Nat
  dataset_name : String
  multi_id : Nat
  message_id : Nat
  timestamp_index : Nat
  ulog_id : Nat
deriving DecidableEq, Repr

/-- One row of the `ULogField` table.  `value_array` models the packed
`BLOB`; `value_json` models the optional `ValueJson` column. -/
structure FieldRow where
  topic_name : String
  data_type : String
  value_array : List Val
  value_json : Option String
  dataset_id : Nat
deriving DecidableEq, Repr

/-- One row of the `ULogMessageDropout` table. -/
structure DropoutRow where
  timestamp : Nat
  duration : Nat
  ulog_id : Nat
deriving DecidableEq, Repr

/-- One row of the `ULogMessageLogging` table. -/
structure LoggingRow where
  log_level : Nat
  timestamp : Nat
  message : String
  ulog_id : Nat
deriving DecidableEq, Repr

/-- One row of the `ULogMessageLoggingTagged` table. -/
structure LoggingTaggedRow where
  log_level : Nat
  timestamp : Nat
  tag : Nat
  message : String
  ulog_id : Nat
deriving DecidableEq, Repr

/-- One row of the `ULogMessageFormat` table. -/
structure FormatRow where
  id : Nat
  name : String
  ulog_id : Nat
deriving DecidableEq, Repr

/-- One row of the `ULogMessageFormatField` table. -/
structure FormatFieldRow where
  field_type : String
  array_size : Nat
  name : String
  message_id : Nat
deriving DecidableEq, Repr

/-- One row of the `ULogMessageInfo` table. -/
structure InfoRow where
  key : String
  value : Val
  typename : String
  ulog_id : Nat
deriving DecidableEq, Repr

/-- One row of the `ULogMessageInfoMultiple` table. -/
structure InfoMultipleRow where
  id : Nat
  key : String
  typename : String
  ulog_id : Nat
deriving DecidableEq, Repr

/-- One row of the `ULogMessageInfoMultipleList` table. -/
structure InfoListRow where
  id : Nat
  series_index : Nat
  message_id : Nat
deriving DecidableEq, Repr

/-- One row of the `ULogMessageInfoMultipleListElement` table. -/
structure InfoElementRow where
  series_index : Nat
  value : Val
  list_id : Nat
deriving DecidableEq, Repr

/-- One row of the `ULogInitialParameter` table. -/
structure InitialParamRow where
  key : String
  value : Val
  ulog_id : Nat
deriving DecidableEq, Repr

/-- One row of the `ULogDefaultParameter` table. -/
structure DefaultParamRow where
  default_type : Nat
  key : String
  value : Val
  ulog_id : Nat
deriving DecidableEq, Repr

/-- One row of the `ULogChangedParameter` table. -/
structure ChangedParamRow where
  timestamp : Nat
  key : String
  value : Val
  ulog_id : Nat
deriving DecidableEq, Repr

/-- The sqlite database: one list of rows per table, in insertion
order, the `PRAGMA user_version` counter, and the next rowid of every
table whose rowid the code reads back through `cur.lastrowid`. -/
structure Store where
  user_version : Nat
  ulog : List ULogRow
  offsets : List OffsetRow
  datasets : List DatasetRow
  fields : List FieldRow
  dropouts : List DropoutRow
  loggings : List LoggingRow
  loggings_tagged : List LoggingTaggedRow
  formats : List FormatRow
  format_fields : List FormatFieldRow
  infos : List InfoRow
  info_multiples : List InfoMultipleRow
  info_lists : List InfoListRow
  info_elements : List InfoElementRow
  initial_params : List InitialParamRow
  default_params : List DefaultParamRow
  changed_params : List ChangedParamRow
  next_ulog_id : Nat
  next_dataset_id : Nat
  next_format_id : Nat
  next_info_multiple_id : Nat
  next_info_list_id : Nat
deriving DecidableEq, Repr

/-- The errors the engine surfaces (`KeyError` / `ValueError` in the
source), named as in the specification's error-kind list. -/
inductive DBErr where
  | schemaVersionTooOld : Nat → Nat → DBErr
  | invalidArguments : DBErr
  | alreadyPersisted : DBErr
  | duplicateContent : Nat → DBErr
  | notFound : DBErr
  | illegalAfterLazyLoad : DBErr
  | ioError : DBErr
  | writeError : DBErr
deriving DecidableEq, Repr

instance {ε α : Type} [DecidableEq ε] [DecidableEq α] : DecidableEq (Except ε α)
  | Except.error e, Except.error f =>
    if h : e = f then .isTrue (congrArg Except.error h)
    else .isFalse (fun he => h (Except.error.inj he))
  | Except.error _, Except.ok _ => .isFalse (fun he => Except.noConfusion he)
  | Except.ok _, Except.error _ => .isFalse (fun he => Except.noConfusion he)
  | Except.ok x, Except.ok y =>
    if h : x = y then .isTrue (congrArg Except.ok h)
    else .isFalse (fun he => h (Except.ok.inj he))

/-- An open (or closed) Python file object over the model filesystem:
its `name`, current position, and `closed` flag. -/
structure PyStream where
  name : String
  pos : Nat
  closed : Bool
deriving DecidableEq, Repr

/-- The `log_file` argument of `calc_sha256sum`: a path string or a file
object. -/
inductive LogSource where
  | path : String → LogSource
  | stream : PyStream → LogSource
deriving DecidableEq, Repr

/-- A model filesystem: file name to byte content. -/
def FS : Type := List (String × List Nat)

/-- Look up the contents of a file by name. -/
def FS.read? (fs : FS) (n : String) : Option (List Nat) :=
  (fs.find? (fun p => p.1 = n)).map (fun p => p.2)

/-- The chunked read loop of `calc_sha256sum`: read 4096 bytes at a
time, feeding each block to the hash, until `read` returns `b''`.  The
result is the concatenation of all fed blocks (the final empty block is
a no-op update). -/
def hashFeed (rest : List Nat) : List Nat :=
  if h : rest.take 4096 = [] then []
  else rest.take 4096 ++ hashFeed (rest.drop 4096)
termination_by rest.length
decreasing_by
  have hne : rest ≠ [] := by
    intro hnil
    exact h (by simp [hnil])
  have hpos : 0 < rest.length := List.length_pos.mpr hne
  simp only [List.length_drop]
  omega

/-- The byte stream a call feeds to SHA-256 equals the remaining
content. -/
theorem hashFeed_eq (l : List Nat) : hashFeed l = l := by
  induction l using hashFeed.induct with
  | case1 rest hb =>
    rw [hashFeed, dif_pos hb]
    simpa [List.take_eq_nil_iff] using hb
  | case2 rest hb ih =>
    rw [hashFeed, dif_neg hb, ih, List.take_append_drop]

/-- `DatabaseULog.calc_sha256sum`.  A path is opened fresh; a closed
file object is reopened by name (and therefore read from the start); an
open file object is read, without a seek, from its current position.
The digest is modelled as the byte sequence fed to the hash; `none`
means the call raised an I/O error opening a missing file. -/
def calc_sha256sum (fs : FS) : Option LogSource → Option (Option (List Nat))
  | none => some none
  | some (LogSource.path p) =>
    (fs.read? p).map (fun content => some (hashFeed content))
  | some (LogSource.stream st) =>
    if st.closed then
      (fs.read? st.name).map (fun content => some (hashFeed content))
    else
      (fs.read? st.name).map (fun content => some (hashFeed (content.drop st.pos)))

/-- `DatabaseULog.exists_in_db`: `SELECT COUNT(*) FROM ULog WHERE Id = ?`
compared with 1.  A `None` primary key matches no row. -/
def exists_in_db (s : Store) (pk : Option Nat) : Bool :=
  (s.ulog.countP (fun r => some r.id = pk)) = 1

/-- `DatabaseULog.primary_key_from_sha256sum`: the id of the first `ULog`
row whose `SHA256Sum` equals the argument.  SQL equality with a `NULL`
parameter matches no row. -/
def primary_key_from_sha256sum (s : Store) (d : Option (List Nat)) : Option Nat :=
  match d with
  | none => none
  | some dig => (s.ulog.find? (fun r => r.sha256sum = some dig)).map (fun r => r.id)

/-- Replacement of the first element satisfying `p`: the model of a
Python in-place mutation of an object found in a list. -/
def replaceFirst {α : Type} (p : α → Bool) (a : α) : List α → List α
  | [] => []
  | b :: bs => if p b then a :: bs else b :: replaceFirst p a bs

/-- Match of a cached dataset against a `(name, multi_instance)` pair. -/
def dsMatch (name : String) (multi : Nat) (d : DataSet) : Bool :=
  d.name = name && d.multi_id = multi

/-- The outcome of one `get_dataset` call: the handle afterwards (the
cache entry may have been mutated in place), the returned dataset or
raised error, and whether a real database fetch was performed. -/
structure GDResult where
  handle : Handle
  result : Except DBErr DataSet
  fetched : Bool
deriving Repr

/-- The fetch half of `DatabaseULog.get_dataset` (the `with db_context:`
block and the branches after it).  `existing?` is the cache entry found
before the fetch.  Resolves the dataset row by
`(DatasetName, MultiId, ULogId)`; unless `lazy`, reads every `ULogField`
row of that dataset, building the field list and the data dict in row
order; then either refreshes the found cache entry in place
(`caching` and a cache entry exists) or returns a fresh object. -/
def get_dataset_fetch (h : Handle) (s : Store) (name : String) (multi : Nat)
    (lazy caching : Bool) (existing? : Option DataSet) : GDResult :=
  match s.datasets.find? (fun r =>
      r.dataset_name = name && r.multi_id = multi && some r.ulog_id = h.pk) with
  | none => { handle := h, result := Except.error DBErr.notFound, fetched := true }
  | some row =>
    let frows := if lazy then [] else s.fields.filter (fun f => f.dataset_id = row.id)
    let fields := frows.map (fun f => FieldData.mk f.topic_name f.data_type)
    let data := frows.foldl (fun acc f => dictSet acc f.topic_name f.value_array) []
    match existing? with
    | some existing =>
      if caching then
        let updated : DataSet :=
          { existing with
            msg_id := row.message_id
            timestamp_idx := row.timestamp_index
            field_data := fields
            data := data }
        { handle := { h with data_list := replaceFirst (dsMatch name multi) updated h.data_list }
          result := Except.ok updated
          fetched := true }
      else
        { handle := h
          result := Except.ok (DataSet.mk name multi row.message_id row.timestamp_index fields data)
          fetched := true }
    | none =>
      { handle := h
        result := Except.ok (DataSet.mk name multi row.message_id row.timestamp_index fields data)
        fetched := true }

/-- `DatabaseULog.get_dataset`.  Looks for a cached entry in
`_data_list`; with `caching` on, a cached entry is returned without any
database access when the caller is lazy or the entry already holds
data; otherwise a real fetch runs. -/
def get_dataset (h : Handle) (s : Store) (name : String) (multi : Nat)
    (lazy caching : Bool) : GDResult :=
  match h.data_list.find? (dsMatch name multi) with
  | some existing =>
    if caching && (lazy || !existing.data.isEmpty) then
      { handle := h, result := Except.ok existing, fetched := false }
    else
      get_dataset_fetch h s name multi lazy caching (some existing)
  | none => get_dataset_fetch h s name multi lazy caching none

/-- The `data_list` loop of `load`: one `get_dataset` call with
`caching=False` per stored `(DatasetName, MultiId)` pair, appending each
result to `_data_list`. -/
def loadDatasets (s : Store) (lazy : Bool) :
    Handle → List (String × Nat) → Except DBErr Handle
  | h, [] => Except.ok h
  | h, (n, m) :: rest =>
    let r := get_dataset h s n m lazy false
    match r.result with
    | Except.error e => Except.error e
    | Except.ok d =>
      loadDatasets s lazy
        { r.handle with data_list := r.handle.data_list ++ [d] } rest

/-- Ordering of offset rows by `SeriesIndex`. -/
def offsetLe (a b : OffsetRow) : Bool :=
  a.series_index ≤ b.series_index

/-- Strict code-point order on character lists. -/
def charsLt : List Char → List Char → Bool
  | [], [] => false
  | [], _ :: _ => true
  | _ :: _, [] => false
  | a :: as, b :: bs =>
    if a.toNat < b.toNat then true
    else if b.toNat < a.toNat then false
    else charsLt as bs

/-- The order of a sqlite `TEXT` column under `ORDER BY`: memcmp on the
UTF-8 bytes, which coincides with code-point order. -/
def strLtb (a b : String) : Bool := charsLt a.data b.data

/-- Ordering of dataset rows by `DatasetName, MultiId`. -/
def datasetRowLe (a b : DatasetRow) : Bool :=
  strLtb a.dataset_name b.dataset_name ||
    (a.dataset_name = b.dataset_name && a.multi_id ≤ b.multi_id)

/-- Ordering of inner-list rows by `SeriesIndex`. -/
def infoListLe (a b : InfoListRow) : Bool :=
  a.series_index ≤ b.series_index

/-- Ordering of list-element rows by `SeriesIndex`. -/
def infoElementLe (a b : InfoElementRow) : Bool :=
  a.series_index ≤ b.series_index

/-- The nested re-query of one multi-info message: its inner lists in
series order, each list's element values in series order. -/
def infoMultipleLists (s : Store) (messageId : Nat) : List (List Val) :=
  (sortByLe infoListLe (s.info_lists.filter (fun l => l.message_id = messageId))).map
    (fun l =>
      (sortByLe infoElementLe (s.info_elements.filter (fun e => e.list_id = l.id))).map
        (fun e => e.value))

/-- `DatabaseULog.load`.  Checks `exists_in_db`, then reads every
section in the order of the source: metadata, ordered offsets, a fresh
`_data_list` rebuilt through `get_dataset` with `caching=False`,
dropouts, plain and tagged messages, formats with their fields (an
inner join, iterated in nested-loop order), scalar and multi-valued
info entries, initial, default and changed parameters.  All list-like
sections append to the handle's existing lists; dict-like sections
assign by key. -/
def load (h : Handle) (s : Store) (lazy : Bool) : Except DBErr Handle :=
  if !exists_in_db s h.pk then
    Except.error DBErr.notFound
  else
    match s.ulog.find? (fun r => some r.id = h.pk) with
    | none => Except.error DBErr.notFound
    | some u =>
      let h1 : Handle :=
        { h with
          file_version := u.file_version
          start_timestamp := u.start_timestamp
          last_timestamp := u.last_timestamp
          compat_flags := u.compat_flags.data.map Char.toNat
          incompat_flags := u.incompat_flags.data.map Char.toNat
          sync_seq_cnt := u.sync_count
          has_sync := u.has_sync
          sha256sum := u.sha256sum
          appended_offsets := h.appended_offsets ++
            (sortByLe offsetLe (s.offsets.filter (fun r => some r.ulog_id = h.pk))).map
              (fun r => r.offset)
          data_list := [] }
      let dsPairs :=
        (sortByLe datasetRowLe (s.datasets.filter (fun r => some r.ulog_id = h.pk))).map
          (fun r => (r.dataset_name, r.multi_id))
      match loadDatasets s lazy h1 dsPairs with
      | Except.error e => Except.error e
      | Except.ok h2 =>
        Except.ok
          { h2 with
            dropouts := h2.dropouts ++
              (s.dropouts.filter (fun r => some r.ulog_id = h.pk)).map
                (fun r => MessageDropout.mk r.timestamp r.duration)
            logged_messages := h2.logged_messages ++
              (s.loggings.filter (fun r => some r.ulog_id = h.pk)).map
                (fun r => MessageLogging.mk r.log_level r.timestamp r.message)
            logged_messages_tagged :=
              (s.loggings_tagged.filter (fun r => some r.ulog_id = h.pk)).foldl
                (fun acc r =>
                  let old := match dictGet? acc r.tag with
                    | some msgs => msgs
                    | none => []
                  dictSet acc r.tag
                    (old ++ [MessageLoggingTagged.mk r.log_level r.tag r.timestamp r.message]))
                h2.logged_messages_tagged
            message_formats :=
              ((s.formats.filter (fun m => some m.ulog_id = h.pk)).flatMap
                (fun m => (s.format_fields.filter (fun f => f.message_id = m.id)).map
                  (fun f => (m.name, f.field_type, f.array_size, f.name)))).foldl
                (fun acc row =>
                  match dictGet? acc row.1 with
                  | some mf => dictSet acc row.1 (MessageFormat.mk mf.name (mf.fields ++ [row.2]))
                  | none => dictSet acc row.1 (MessageFormat.mk row.1 [row.2]))
                h2.message_formats
            msg_info_dict :=
              (s.infos.filter (fun r => some r.ulog_id = h.pk)).foldl
                (fun acc r => dictSet acc r.key r.value) h2.msg_info_dict
            msg_info_dict_types :=
              (s.infos.filter (fun r => some r.ulog_id = h.pk)).foldl
                (fun acc r => dictSet acc r.key r.typename) h2.msg_info_dict_types
            msg_info_multiple_dict :=
              (s.info_multiples.filter (fun r => some r.ulog_id = h.pk)).foldl
                (fun acc r => dictSet acc r.key (infoMultipleLists s r.id))
                h2.msg_info_multiple_dict
            msg_info_multiple_dict_types :=
              (s.info_multiples.filter (fun r => some r.ulog_id = h.pk)).foldl
                (fun acc r => dictSet acc r.key r.typename)
                h2.msg_info_multiple_dict_types
            initial_parameters :=
              (s.initial_params.filter (fun r => some r.ulog_id = h.pk)).foldl
                (fun acc r => dictSet acc r.key r.value) h2.initial_parameters
            default_parameters :=
              (s.default_params.filter (fun r => some r.ulog_id = h.pk)).foldl
                (fun acc r =>
                  let inner := match dictGet? acc r.default_type with
                    | some d => d
                    | none => []
                  dictSet acc r.default_type (dictSet inner r.key r.value))
                h2.default_parameters
            changed_parameters := h2.changed_parameters ++
              (s.changed_params.filter (fun r => some r.ulog_id = h.pk)).map
                (fun r => (r.timestamp, r.key, r.value))
            lazy_loaded := lazy }

/-- Construction of a `DatabaseULog` from an existing primary key:
`ULog.__init__(None)` leaves every collection empty, then `load` runs. -/
def loadFresh (s : Store) (pk : Nat) (lazy : Bool) : Except DBErr Handle :=
  load (emptyHandle (some pk) lazy) s lazy

/-- Rendering of one scalar for the queryable JSON column. -/
def valJsonStr : Val → String
  | Val.int n => toString n
  | Val.str st => st
  | Val.real b => toString b

/-- The text written to the `ValueJson` column: the code's
`str(dict(zip(timestamp_strings, values)))` with `nan`/`inf` replaced by
`null` and quotes normalized.  Modelled in shape only (a dict rendering
of timestamp/value pairs): no read path of the engine ever inspects this
column, and the specification calls it write-only convenience. -/
def valuesJson (timestamps values : List Val) : String :=
  "\x7b" ++ String.intercalate ", " ((timestamps.zip values).map
    (fun p => "\x22" ++ valJsonStr p.1 ++ "\x22: " ++ valJsonStr p.2)) ++ "\x7d"

/-- The inner field loop of `save` for one dataset: one `ULogField` row
per `_FieldData` entry, in order.  `dataset.data[field.field_name]`
raises if the data dict lacks the field; with `append_json` set,
`dataset.data['timestamp']` likewise. -/
def saveFields (ajson : Bool) (did : Nat) (d : DataSet) :
    List FieldData → Except DBErr (List FieldRow)
  | [] => Except.ok []
  | f :: rest =>
    match dictGet? d.data f.field_name with
    | none => Except.error DBErr.writeError
    | some values =>
      let vj? : Except DBErr (Option String) :=
        if ajson then
          match dictGet? d.data "timestamp" with
          | none => Except.error DBErr.writeError
          | some ts => Except.ok (some (valuesJson ts values))
        else Except.ok none
      match vj? with
      | Except.error e => Except.error e
      | Except.ok vj =>
        match saveFields ajson did d rest with
        | Except.error e => Except.error e
        | Except.ok rows =>
          Except.ok (FieldRow.mk f.field_name f.type_str values vj did :: rows)

/-- The dataset loop of `save`: each dataset row takes the next rowid of
`ULogDataset` (read back through `cur.lastrowid`), followed by its field
rows. -/
def saveDatasets (ajson : Bool) (pk : Nat) :
    List DataSet → Nat → Except DBErr (List DatasetRow × List FieldRow × Nat)
  | [], did => Except.ok ([], [], did)
  | d :: rest, did =>
    match saveFields ajson did d d.field_data with
    | Except.error e => Except.error e
    | Except.ok frows =>
      match saveDatasets ajson pk rest (did + 1) with
      | Except.error e => Except.error e
      | Except.ok (drows, frowsRest, did') =>
        Except.ok
          (DatasetRow.mk did d.name d.multi_id d.msg_id d.timestamp_idx pk :: drows,
           frows ++ frowsRest, did')

/-- The message-format loop of `save`: each format row takes the next
rowid of `ULogMessageFormat`, followed by one field row per ordered
`(type, array size, name)` triple. -/
def saveFormats (pk : Nat) :
    List (String × MessageFormat) → Nat → List FormatRow × List FormatFieldRow × Nat
  | [], fid => ([], [], fid)
  | (name, mf) :: rest, fid =>
    let (frows, ffrows, fid') := saveFormats pk rest (fid + 1)
    (FormatRow.mk fid name pk :: frows,
     mf.fields.map (fun f => FormatFieldRow.mk f.1 f.2.1 f.2.2 fid) ++ ffrows,
     fid')

/-- The scalar-info loop of `save`: `self._msg_info_dict_types[key]`
raises if the parallel type dict lacks a key of the value dict. -/
def saveInfos (pk : Nat) (types : List (String × String)) :
    List (String × Val) → Except DBErr (List InfoRow)
  | [] => Except.ok []
  | (k, v) :: rest =>
    match dictGet? types k with
    | none => Except.error DBErr.writeError
    | some ty =>
      match saveInfos pk types rest with
      | Except.error e => Except.error e
      | Except.ok rows => Except.ok (InfoRow.mk k v ty pk :: rows)

/-- The inner-list loop of one multi-info entry: each list row takes the
next rowid of `ULogMessageInfoMultipleList`, followed by its enumerated
element rows. -/
def saveInfoLists (mid : Nat) :
    List (List Val) → Nat → Nat → List InfoListRow × List InfoElementRow × Nat
  | [], _, lid => ([], [], lid)
  | l :: rest, idx, lid =>
    let (lrows, erows, lid') := saveInfoLists mid rest (idx + 1) (lid + 1)
    (InfoListRow.mk lid idx mid :: lrows,
     l.enum.map (fun p => InfoElementRow.mk p.1 p.2 lid) ++ erows,
     lid')

/-- The multi-info loop of `save`: each entry takes the next rowid of
`ULogMessageInfoMultiple`; the parallel type dict must hold its key. -/
def saveInfoMultiples (pk : Nat) (types : List (String × String)) :
    List (String × List (List Val)) → Nat → Nat →
      Except DBErr (List InfoMultipleRow × List InfoListRow × List InfoElementRow × Nat × Nat)
  | [], mid, lid => Except.ok ([], [], [], mid, lid)
  | (k, lists) :: rest, mid, lid =>
    match dictGet? types k with
    | none => Except.error DBErr.writeError
    | some ty =>
      let (lrows, erows, lid') := saveInfoLists mid lists 0 lid
      match saveInfoMultiples pk types rest (mid + 1) lid' with
      | Except.error e => Except.error e
      | Except.ok (mrows, lrowsRest, erowsRest, mid', lid'') =>
        Except.ok (InfoMultipleRow.mk mid k ty pk :: mrows,
                   lrows ++ lrowsRest, erows ++ erowsRest, mid', lid'')

/-- The outcome of one `save` call: Python mutations of the handle
(`_pk` is assigned at the `ULog` insert and on digest adoption, and
survives a rollback), the store afterwards, and the raised error or the
assigned primary key. -/
structure SaveResult where
  handle : Handle
  store : Store
  result : Except DBErr Nat
deriving Repr

/-- `DatabaseULog.save`.  Refuses a handle that already has a primary
key; adopts and reports an existing row with the same content digest;
otherwise writes every section inside one transaction (`with con`
commits on success and rolls back on an exception, so an error raised
while writing rows leaves the store unchanged). -/
def save (h : Handle) (s : Store) (append_json : Bool) : SaveResult :=
  if h.pk.isSome then
    { handle := h, store := s, result := Except.error DBErr.alreadyPersisted }
  else
    match primary_key_from_sha256sum s h.sha256sum with
    | some pkExisting =>
      { handle := { h with pk := some pkExisting }
        store := s
        result := Except.error (DBErr.duplicateContent pkExisting) }
    | none =>
      let pk := s.next_ulog_id
      let urow : ULogRow :=
        { id := pk
          file_version := h.file_version
          start_timestamp := h.start_timestamp
          last_timestamp := h.last_timestamp
          compat_flags := String.mk (h.compat_flags.map Char.ofNat)
          incompat_flags := String.mk (h.incompat_flags.map Char.ofNat)
          sync_count := h.sync_seq_cnt
          has_sync := h.has_sync
          sha256sum := h.sha256sum }
      let h' := { h with pk := some pk }
      match saveDatasets append_json pk h.data_list s.next_dataset_id with
      | Except.error e => { handle := h', store := s, result := Except.error e }
      | Except.ok (drows, frows, did') =>
        let (fmrows, ffrows, fid') := saveFormats pk h.message_formats s.next_format_id
        match saveInfos pk h.msg_info_dict_types h.msg_info_dict with
        | Except.error e => { handle := h', store := s, result := Except.error e }
        | Except.ok irows =>
          match saveInfoMultiples pk h.msg_info_multiple_dict_types
              h.msg_info_multiple_dict s.next_info_multiple_id s.next_info_list_id with
          | Except.error e => { handle := h', store := s, result := Except.error e }
          | Except.ok (mrows, lrows, erows, mid', lid') =>
            { handle := h'
              store :=
                { s with
                  ulog := s.ulog ++ [urow]
                  offsets := s.offsets ++
                    h.appended_offsets.enum.map (fun p => OffsetRow.mk p.1 p.2 pk)
                  datasets := s.datasets ++ drows
                  fields := s.fields ++ frows
                  dropouts := s.dropouts ++
                    h.dropouts.map (fun d => DropoutRow.mk d.timestamp d.duration pk)
                  loggings := s.loggings ++
                    h.logged_messages.map
                      (fun m => LoggingRow.mk m.log_level m.timestamp m.message pk)
                  loggings_tagged := s.loggings_tagged ++
                    h.logged_messages_tagged.flatMap
                      (fun p => p.2.map
                        (fun m => LoggingTaggedRow.mk m.log_level m.timestamp p.1 m.message pk))
                  formats := s.formats ++ fmrows
                  format_fields := s.format_fields ++ ffrows
                  infos := s.infos ++ irows
                  info_multiples := s.info_multiples ++ mrows
                  info_lists := s.info_lists ++ lrows
                  info_elements := s.info_elements ++ erows
                  initial_params := s.initial_params ++
                    h.initial_parameters.map (fun p => InitialParamRow.mk p.1 p.2 pk)
                  default_params := s.default_params ++
                    h.default_parameters.flatMap
                      (fun q => q.2.map (fun p => DefaultParamRow.mk q.1 p.1 p.2 pk))
                  changed_params := s.changed_params ++
                    h.changed_parameters.map
                      (fun c => ChangedParamRow.mk c.1 c.2.1 c.2.2 pk)
                  next_ulog_id := pk + 1
                  next_dataset_id := did'
                  next_format_id := fid'
                  next_info_multiple_id := mid'
                  next_info_list_id := lid' }
              result := Except.ok pk }

/-- The outcome of one `delete` call. -/
structure DeleteResult where
  handle : Handle
  store : Store
  result : Except DBErr Unit
deriving Repr

/-- `DatabaseULog.delete`: refuses a handle without a primary key;
otherwise deletes the `ULog` row and clears `_pk`.  The removal of the
owned rows is modelled from the spec: the `ON DELETE CASCADE` foreign
keys of the schema (the migration files are not part of the given
sources) remove every row keyed to the deleted `ULog` row, and
transitively the rows keyed to its deleted datasets, formats and
multi-info messages. -/
def delete (h : Handle) (s : Store) : DeleteResult :=
  match h.pk with
  | none => { handle := h, store := s, result := Except.error DBErr.notFound }
  | some pk =>
    let deadDatasets := (s.datasets.filter (fun r => r.ulog_id = pk)).map (fun r => r.id)
    let deadFormats := (s.formats.filter (fun r => r.ulog_id = pk)).map (fun r => r.id)
    let deadMultis := (s.info_multiples.filter (fun r => r.ulog_id = pk)).map (fun r => r.id)
    let deadLists := (s.info_lists.filter (fun l => l.message_id ∈ deadMultis)).map (fun l => l.id)
    { handle := { h with pk := none }
      store :=
        { s with
          ulog := s.ulog.filter (fun r => !(r.id = pk))
          offsets := s.offsets.filter (fun r => !(r.ulog_id = pk))
          datasets := s.datasets.filter (fun r => !(r.ulog_id = pk))
          fields := s.fields.filter (fun f => !(f.dataset_id ∈ deadDatasets))
          dropouts := s.dropouts.filter (fun r => !(r.ulog_id = pk))
          loggings := s.loggings.filter (fun r => !(r.ulog_id = pk))
          loggings_tagged := s.loggings_tagged.filter (fun r => !(r.ulog_id = pk))
          formats := s.formats.filter (fun r => !(r.ulog_id = pk))
          format_fields := s.format_fields.filter (fun f => !(f.message_id ∈ deadFormats))
          infos := s.infos.filter (fun r => !(r.ulog_id = pk))
          info_multiples := s.info_multiples.filter (fun r => !(r.ulog_id = pk))
          info_lists := s.info_lists.filter (fun l => !(l.message_id ∈ deadMultis))
          info_elements := s.info_elements.filter (fun e => !(e.list_id ∈ deadLists))
          initial_params := s.initial_params.filter (fun r => !(r.ulog_id = pk))
          default_params := s.default_params.filter (fun r => !(r.ulog_id = pk))
          changed_params := s.changed_params.filter (fun r => !(r.ulog_id = pk)) }
      result := Except.ok () }

/-- The schema version this engine expects (`DatabaseULog.SCHEMA_VERSION`). -/
def SCHEMA_VERSION : Nat := 5

/-- `DatabaseULog.__init__`.  Reads `PRAGMA user_version` first and
hard-stops if the store's counter is below `SCHEMA_VERSION`; then checks
that exactly one of `primary_key` and `log_file` was supplied; computes
the content digest when a `log_file` was given; parses the file through
the external `ULog` decoder (`decode`, given as a parameter: the binary
log parser is outside the persistence engine); and finally runs `load`
when a `primary_key` was given. -/
def dbinit (s : Store) (fs : FS) (decode : LogSource → Handle)
    (primary_key : Option Nat) (log_file : Option LogSource) (lazy : Bool) :
    Except DBErr Handle :=
  if s.user_version < SCHEMA_VERSION then
    Except.error (DBErr.schemaVersionTooOld s.user_version SCHEMA_VERSION)
  else if log_file.isSome && primary_key.isSome then
    Except.error DBErr.invalidArguments
  else if log_file.isNone && primary_key.isNone then
    Except.error DBErr.invalidArguments
  else
    match calc_sha256sum fs log_file with
    | none => Except.error DBErr.ioError
    | some sha? =>
      let base : Handle :=
        match log_file with
        | some src =>
          { decode src with pk := primary_key, sha256sum := sha?, lazy_loaded := lazy }
        | none => emptyHandle primary_key lazy
      match primary_key with
      | some _ => load base s lazy
      | none => Except.ok base

/-- Keys of an association list, in order. -/
def dictKeys {α β : Type} (l : List (α × β)) : List α :=
  l.map (fun p => p.1)

/-- Wellformedness of one decoded dataset, as the binary decoder
produces it: the data dict has exactly the declared fields as keys, in
declaration order and without duplicates, and every data message leads
with a `timestamp` field. -/
structure DataSetWF (d : DataSet) : Prop where
  keys_eq : dictKeys d.data = d.field_data.map (fun f => f.field_name)
  keys_nodup : (d.field_data.map (fun f => f.field_name)).Nodup
  has_timestamp : (dictGet? d.data "timestamp").isSome

/-- Wellformedness of a decoded log, as the binary decoder produces it:
flag sequences are bytes, dict keys are unique, the parallel type dicts
run over the same keys in the same order, tagged messages sit under
their own tag with at least one message per tag, formats carry their
dict key as name and at least one field, and default-parameter groups
are nonempty. -/
structure HandleWF (h : Handle) : Prop where
  flags_compat : ∀ n ∈ h.compat_flags, n < 256
  flags_incompat : ∀ n ∈ h.incompat_flags, n < 256
  ds_wf : ∀ d ∈ h.data_list, DataSetWF d
  ds_keys_nodup : (h.data_list.map (fun d => (d.name, d.multi_id))).Nodup
  tagged_tags : ∀ p ∈ h.logged_messages_tagged, ∀ m ∈ p.2, m.tag = p.1
  tagged_nonempty : ∀ p ∈ h.logged_messages_tagged, p.2 ≠ []
  tagged_nodup : (dictKeys h.logged_messages_tagged).Nodup
  formats_name : ∀ p ∈ h.message_formats, p.2.name = p.1
  formats_nonempty : ∀ p ∈ h.message_formats, p.2.fields ≠ []
  formats_nodup : (dictKeys h.message_formats).Nodup
  info_types_keys : dictKeys h.msg_info_dict_types = dictKeys h.msg_info_dict
  info_nodup : (dictKeys h.msg_info_dict).Nodup
  multi_types_keys :
    dictKeys h.msg_info_multiple_dict_types = dictKeys h.msg_info_multiple_dict
  multi_nodup : (dictKeys h.msg_info_multiple_dict).Nodup
  initial_nodup : (dictKeys h.initial_parameters).Nodup
  default_nodup : (dictKeys h.default_parameters).Nodup
  default_inner_nodup : ∀ p ∈ h.default_parameters, (dictKeys p.2).Nodup
  default_nonempty : ∀ p ∈ h.default_parameters, p.2 ≠ []

/-- Wellformedness of a store: every assigned rowid, and every foreign
key referencing one, lies below the table's next-rowid counter. -/
structure StoreWF (s : Store) : Prop where
  ulog_lt : ∀ r ∈ s.ulog, r.id < s.next_ulog_id
  offsets_lt : ∀ r ∈ s.offsets, r.ulog_id < s.next_ulog_id
  datasets_lt : ∀ r ∈ s.datasets, r.ulog_id < s.next_ulog_id
  datasets_id_lt : ∀ r ∈ s.datasets, r.id < s.next_dataset_id
  fields_lt : ∀ r ∈ s.fields, r.dataset_id < s.next_dataset_id
  dropouts_lt : ∀ r ∈ s.dropouts, r.ulog_id < s.next_ulog_id
  loggings_lt : ∀ r ∈ s.loggings, r.ulog_id < s.next_ulog_id
  loggings_tagged_lt : ∀ r ∈ s.loggings_tagged, r.ulog_id < s.next_ulog_id
  formats_lt : ∀ r ∈ s.formats, r.ulog_id < s.next_ulog_id
  formats_id_lt : ∀ r ∈ s.formats, r.id < s.next_format_id
  format_fields_lt : ∀ r ∈ s.format_fields, r.message_id < s.next_format_id
  infos_lt : ∀ r ∈ s.infos, r.ulog_id < s.next_ulog_id
  multis_lt : ∀ r ∈ s.info_multiples, r.ulog_id < s.next_ulog_id
  multis_id_lt : ∀ r ∈ s.info_multiples, r.id < s.next_info_multiple_id
  lists_mid_lt : ∀ r ∈ s.info_lists, r.message_id < s.next_info_multiple_id
  lists_id_lt : ∀ r ∈ s.info_lists, r.id < s.next_info_list_id
  elements_lt : ∀ r ∈ s.info_elements, r.list_id < s.next_info_list_id
  initial_lt : ∀ r ∈ s.initial_params, r.ulog_id < s.next_ulog_id
  default_lt : ∀ r ∈ s.default_params, r.ulog_id < s.next_ulog_id
  changed_lt : ∀ r ∈ s.changed_params, r.ulog_id < s.next_ulog_id

/-- Element-wise equality of the loggable content of two handles: the
components the round-trip property ranges over. -/
def contentEq (a b : Handle) : Prop :=
  a.file_version = b.file_version ∧
  a.start_timestamp = b.start_timestamp ∧
  a.last_timestamp = b.last_timestamp ∧
  a.compat_flags = b.compat_flags ∧
  a.incompat_flags = b.incompat_flags ∧
  a.sync_seq_cnt = b.sync_seq_cnt ∧
  a.has_sync = b.has_sync ∧
  a.sha256sum = b.sha256sum ∧
  a.appended_offsets = b.appended_offsets ∧
  a.data_list = b.data_list ∧
  a.dropouts = b.dropouts ∧
  a.logged_messages = b.logged_messages ∧
  a.logged_messages_tagged = b.logged_messages_tagged ∧
  a.message_formats = b.message_formats ∧
  a.msg_info_dict = b.msg_info_dict ∧
  a.msg_info_dict_types = b.msg_info_dict_types ∧
  a.msg_info_multiple_dict = b.msg_info_multiple_dict ∧
  a.msg_info_multiple_dict_types = b.msg_info_multiple_dict_types ∧
  a.initial_parameters = b.initial_parameters ∧
  a.default_parameters = b.default_parameters ∧
  a.changed_parameters = b.changed_parameters

instance (a b : Handle) : Decidable (contentEq a b) := by
  unfold contentEq
  infer_instance

/-- Sortedness of a decoded log's dataset list by `(name, multi id)`:
the order in which `load` returns datasets. -/
def dsSorted (dl : List DataSet) : Prop :=
  dl.Pairwise (fun a b =>
    strLtb a.name b.name = true ∨ (a.name = b.name ∧ a.multi_id ≤ b.multi_id))

theorem char_toNat_ofNat (n : Nat) (h : n < 256) : (Char.ofNat n).toNat = n := by
  have hv : n.isValidChar := Or.inl (by omega)
  unfold Char.ofNat Char.ofNatAux
  rw [dif_pos hv]
  rfl

theorem flags_roundtrip (l : List Nat) (h : ∀ n ∈ l, n < 256) :
    (String.mk (l.map Char.ofNat)).data.map Char.toNat = l := by
  show (l.map Char.ofNat).map Char.toNat = l
  rw [List.map_map]
  calc l.map (Char.toNat ∘ Char.ofNat)
      = l.map id := List.map_congr_left (fun n hn => char_toNat_ofNat n (h n hn))
    _ = l := List.map_id l

theorem filter_append_eq {α : Type} (p : α → Bool) (old new : List α)
    (hold : ∀ a ∈ old, ¬p a = true) (hnew : ∀ a ∈ new, p a = true) :
    (old ++ new).filter p = new := by
  rw [List.filter_append, List.filter_eq_nil_iff.mpr hold,
    List.filter_eq_self.mpr hnew, List.nil_append]

theorem find?_append_skip {α : Type} (p : α → Bool) (old new : List α)
    (hold : ∀ a ∈ old, ¬p a = true) :
    (old ++ new).find? p = new.find? p := by
  rw [List.find?_append, List.find?_eq_none.mpr hold, Option.none_or]

theorem countP_append_skip {α : Type} (p : α → Bool) (old new : List α)
    (hold : ∀ a ∈ old, ¬p a = true) :
    (old ++ new).countP p = new.countP p := by
  rw [List.countP_append, List.countP_eq_zero.mpr hold, Nat.zero_add]

theorem dictGet?_eq_none {α : Type} [DecidableEq α] {β : Type}
    (l : List (α × β)) (k : α) (h : k ∉ dictKeys l) : dictGet? l k = none := by
  rw [dictGet?, List.find?_eq_none.mpr, Option.map_none']
  intro p hp
  simp only [decide_eq_true_eq]
  intro hk
  exact h (hk ▸ List.mem_map_of_mem (fun q => q.1) hp)

theorem dictGet?_cons_self {α : Type} [DecidableEq α] {β : Type}
    (l : List (α × β)) (k : α) (v : β) : dictGet? ((k, v) :: l) k = some v := by
  simp [dictGet?, List.find?_cons]

theorem dictGet?_cons_ne {α : Type} [DecidableEq α] {β : Type}
    (l : List (α × β)) (k k' : α) (v : β) (h : k' ≠ k) :
    dictGet? ((k', v) :: l) k = dictGet? l k := by
  simp [dictGet?, List.find?_cons, h]

theorem dictSet_of_notMem {α : Type} [DecidableEq α] {β : Type}
    (l : List (α × β)) (k : α) (v : β) (h : k ∉ dictKeys l) :
    dictSet l k v = l ++ [(k, v)] := by
  induction l with
  | nil => rfl
  | cons p rest ih =>
    have hne : p.1 ≠ k := by
      intro he
      exact h (he ▸ List.mem_map_of_mem (fun q => q.1) (List.mem_cons_self p rest))
    have hrest : k ∉ dictKeys rest := by
      intro hm
      exact h (List.mem_cons_of_mem _ hm)
    calc dictSet (p :: rest) k v = p :: dictSet rest k v := by
          rw [show (p : α × β) = (p.1, p.2) from rfl, dictSet, if_neg hne]
      _ = (p :: rest) ++ [(k, v)] := by rw [ih hrest]; rfl

theorem dictGet?_dictSet_self {α : Type} [DecidableEq α] {β : Type}
    (l : List (α × β)) (k : α) (v : β) : dictGet? (dictSet l k v) k = some v := by
  induction l with
  | nil => simp [dictSet, dictGet?, List.find?_cons]
  | cons p rest ih =>
    rw [show (p : α × β) = (p.1, p.2) from rfl, dictSet]
    by_cases he : p.1 = k
    · rw [if_pos he, dictGet?_cons_self]
    · rw [if_neg he, dictGet?_cons_ne _ _ _ _ he, ih]

theorem dictSet_dictSet_self {α : Type} [DecidableEq α] {β : Type}
    (l : List (α × β)) (k : α) (v w : β) :
    dictSet (dictSet l k v) k w = dictSet l k w := by
  induction l with
  | nil => simp [dictSet]
  | cons p rest ih =>
    rw [show (p : α × β) = (p.1, p.2) from rfl, dictSet]
    by_cases he : p.1 = k
    · rw [if_pos he, dictSet, if_pos rfl, dictSet, if_pos he]
    · rw [if_neg he, dictSet, if_neg he, ih, dictSet, if_neg he]

theorem dictSet_append_of_notMem {α : Type} [DecidableEq α] {β : Type}
    (l₁ l₂ : List (α × β)) (k : α) (v : β) (h : k ∉ dictKeys l₁) :
    dictSet (l₁ ++ l₂) k v = l₁ ++ dictSet l₂ k v := by
  induction l₁ with
  | nil => rfl
  | cons p rest ih =>
    have hne : p.1 ≠ k := by
      intro he
      exact h (he ▸ List.mem_map_of_mem (fun q => q.1) (List.mem_cons_self p rest))
    have hrest : k ∉ dictKeys rest := fun hm => h (List.mem_cons_of_mem _ hm)
    rw [List.cons_append, show (p : α × β) = (p.1, p.2) from rfl, dictSet,
      if_neg hne, ih hrest, List.cons_append]

theorem dictGet?_append_of_notMem {α : Type} [DecidableEq α] {β : Type}
    (l₁ l₂ : List (α × β)) (k : α) (h : k ∉ dictKeys l₁) :
    dictGet? (l₁ ++ l₂) k = dictGet? l₂ k := by
  induction l₁ with
  | nil => rfl
  | cons p rest ih =>
    have hne : p.1 ≠ k := by
      intro he
      exact h (he ▸ List.mem_map_of_mem (fun q => q.1) (List.mem_cons_self p rest))
    have hrest : k ∉ dictKeys rest := fun hm => h (List.mem_cons_of_mem _ hm)
    rw [List.cons_append, show (p : α × β) = (p.1, p.2) from rfl,
      dictGet?_cons_ne _ _ _ _ hne, ih hrest]

theorem foldl_dictSet_append {α : Type} [DecidableEq α] {β : Type}
    (kvs : List (α × β)) (hnodup : (dictKeys kvs).Nodup) :
    ∀ acc : List (α × β), (∀ k ∈ dictKeys kvs, k ∉ dictKeys acc) →
      kvs.foldl (fun a p => dictSet a p.1 p.2) acc = acc ++ kvs := by
  induction kvs with
  | nil => intro acc _; simp
  | cons p rest ih =>
    intro acc hdisj
    have hp : p.1 ∉ dictKeys acc :=
      hdisj p.1 (List.mem_map_of_mem (fun q => q.1) (List.mem_cons_self p rest))
    have hnr : (dictKeys rest).Nodup := (List.nodup_cons.mp hnodup).2
    have hpn : p.1 ∉ dictKeys rest := (List.nodup_cons.mp hnodup).1
    rw [List.foldl_cons, dictSet_of_notMem _ _ _ hp, ih hnr]
    · simp
    · intro k hk
      rw [dictKeys, List.map_append]
      intro hm
      rcases List.mem_append.mp hm with hm1 | hm2
      · exact hdisj k (List.mem_cons_of_mem _ hk) hm1
      · simp only [List.map_cons, List.map_nil, List.mem_singleton] at hm2
        exact hpn (hm2 ▸ hk)

theorem dict_eta {α : Type} [DecidableEq α] {β : Type}
    (l : List (α × β)) (hnodup : (dictKeys l).Nodup) (dflt : β) :
    (dictKeys l).map (fun k => (k, (dictGet? l k).getD dflt)) = l := by
  induction l with
  | nil => rfl
  | cons p rest ih =>
    have hpn : p.1 ∉ dictKeys rest := (List.nodup_cons.mp hnodup).1
    have hnr : (dictKeys rest).Nodup := (List.nodup_cons.mp hnodup).2
    have hhead : (dictGet? (p :: rest) p.1).getD dflt = p.2 := by
      rw [show (p : α × β) = (p.1, p.2) from rfl, dictGet?_cons_self, Option.getD_some]
    have hcong : (dictKeys rest).map (fun k => (k, (dictGet? (p :: rest) k).getD dflt))
        = (dictKeys rest).map (fun k => (k, (dictGet? rest k).getD dflt)) :=
      List.map_congr_left (fun k hk => by
        rw [show (p : α × β) = (p.1, p.2) from rfl,
          dictGet?_cons_ne _ _ _ _ (fun he : p.1 = k => hpn (he.symm ▸ hk))])
    show (p.1, (dictGet? (p :: rest) p.1).getD dflt) ::
        (dictKeys rest).map (fun k => (k, (dictGet? (p :: rest) k).getD dflt)) = p :: rest
    rw [hhead, hcong, ih hnr]

theorem insertLe_of_head {α : Type} (le : α → α → Bool) (a b : α) (l : List α)
    (h : le a b = true) : insertLe le a (b :: l) = a :: b :: l := by
  rw [insertLe, if_pos h]

theorem sortByLe_eq_self {α : Type} {le : α → α → Bool} :
    ∀ {l : List α}, l.Pairwise (fun a b => le a b = true) → sortByLe le l = l := by
  intro l h
  induction l with
  | nil => rfl
  | cons a as ih =>
    rw [sortByLe, ih (List.pairwise_cons.mp h).2]
    cases as with
    | nil => rfl
    | cons b bs =>
      exact insertLe_of_head le a b bs
        ((List.pairwise_cons.mp h).1 b (List.mem_cons_self b bs))

theorem pairwise_enumFrom_lt {α : Type} (l : List α) :
    ∀ n : Nat, (List.enumFrom n l).Pairwise (fun a b => a.1 < b.1) := by
  induction l with
  | nil => intro n; simp
  | cons a as ih =>
    intro n
    rw [List.enumFrom, List.pairwise_cons]
    refine ⟨fun p hp => ?_, ih (n + 1)⟩
    rcases p with ⟨i, x⟩
    have := List.mem_enumFrom hp
    omega

theorem pairwise_enum_lt {α : Type} (l : List α) :
    l.enum.Pairwise (fun a b => a.1 < b.1) :=
  pairwise_enumFrom_lt l 0

theorem dictGet?_isSome {α : Type} [DecidableEq α] {β : Type} :
    ∀ (l : List (α × β)) (k : α), k ∈ dictKeys l → (dictGet? l k).isSome := by
  intro l k
  induction l with
  | nil => intro h; simp [dictKeys] at h
  | cons p rest ih =>
    intro h
    by_cases he : p.1 = k
    · rw [show (p : α × β) = (p.1, p.2) from rfl, he, dictGet?_cons_self]
      rfl
    · rw [show (p : α × β) = (p.1, p.2) from rfl, dictGet?_cons_ne _ _ _ _ he]
      rcases List.mem_cons.mp h with h1 | h2
      · exact absurd h1.symm he
      · exact ih h2

/-- The `ULogField` row the successful save writes for one field of one
dataset. -/
def fieldRowSpec (ajson : Bool) (did : Nat) (d : DataSet) (f : FieldData) : FieldRow where
  topic_name := f.field_name
  data_type := f.type_str
  value_array := (dictGet? d.data f.field_name).getD []
  value_json :=
    if ajson then
      some (valuesJson ((dictGet? d.data "timestamp").getD [])
        ((dictGet? d.data f.field_name).getD []))
    else none
  dataset_id := did

/-- The `ULogDataset` rows the successful save writes. -/
def dsRowsSpec (pk : Nat) : List DataSet → Nat → List DatasetRow
  | [], _ => []
  | d :: rest, did =>
    DatasetRow.mk did d.name d.multi_id d.msg_id d.timestamp_idx pk ::
      dsRowsSpec pk rest (did + 1)

/-- The `ULogField` rows the successful save writes. -/
def fieldRowsSpec (ajson : Bool) : List DataSet → Nat → List FieldRow
  | [], _ => []
  | d :: rest, did =>
    d.field_data.map (fieldRowSpec ajson did d) ++ fieldRowsSpec ajson rest (did + 1)

theorem saveFields_ok (ajson : Bool) (did : Nat) (d : DataSet)
    (hts : (dictGet? d.data "timestamp").isSome) :
    ∀ fl : List FieldData, (∀ f ∈ fl, (dictGet? d.data f.field_name).isSome) →
      saveFields ajson did d fl = Except.ok (fl.map (fieldRowSpec ajson did d)) := by
  intro fl
  induction fl with
  | nil => intro _; rfl
  | cons f rest ih =>
    intro hall
    obtain ⟨v, hv⟩ := Option.isSome_iff_exists.mp (hall f (List.mem_cons_self f rest))
    have hrest := ih (fun g hg => hall g (List.mem_cons_of_mem f hg))
    cases ajson with
    | false => simp [saveFields, hv, hrest, fieldRowSpec]
    | true =>
      obtain ⟨ts, hts'⟩ := Option.isSome_iff_exists.mp hts
      simp [saveFields, hv, hts', hrest, fieldRowSpec]

theorem saveDatasets_ok (ajson : Bool) (pk : Nat) :
    ∀ (dl : List DataSet) (did : Nat), (∀ d ∈ dl, DataSetWF d) →
      saveDatasets ajson pk dl did =
        Except.ok (dsRowsSpec pk dl did, fieldRowsSpec ajson dl did, did + dl.length) := by
  intro dl
  induction dl with
  | nil => intro did _; simp [saveDatasets, dsRowsSpec, fieldRowsSpec]
  | cons d rest ih =>
    intro did hwf
    have hdwf : DataSetWF d := hwf d (List.mem_cons_self d rest)
    have hflds : ∀ f ∈ d.field_data, (dictGet? d.data f.field_name).isSome := by
      intro f hf
      refine dictGet?_isSome _ _ ?_
      rw [hdwf.keys_eq]
      exact List.mem_map_of_mem (fun g => g.field_name) hf
    rw [saveDatasets, saveFields_ok ajson did d hdwf.has_timestamp d.field_data hflds,
      ih (did + 1) (fun d' hd' => hwf d' (List.mem_cons_of_mem d hd'))]
    simp only [dsRowsSpec, fieldRowsSpec, List.length_cons]
    rw [show did + (rest.length + 1) = did + 1 + rest.length by omega]

/-- The pure fetch `get_dataset` performs with `caching=False`: resolve
the dataset row, then read and decode its fields unless lazy. -/
def fetchSpec (s : Store) (pk : Option Nat) (name : String) (multi : Nat)
    (lazy : Bool) : Except DBErr DataSet :=
  match s.datasets.find? (fun r =>
      r.dataset_name = name && r.multi_id = multi && some r.ulog_id = pk) with
  | none => Except.error DBErr.notFound
  | some row =>
    let frows := if lazy then [] else s.fields.filter (fun f => f.dataset_id = row.id)
    Except.ok (DataSet.mk name multi row.message_id row.timestamp_index
      (frows.map (fun f => FieldData.mk f.topic_name f.data_type))
      (frows.foldl (fun acc f => dictSet acc f.topic_name f.value_array) []))

theorem get_dataset_fetch_nocaching (h : Handle) (s : Store) (n : String)
    (m : Nat) (lazy : Bool) (e? : Option DataSet) :
    get_dataset_fetch h s n m lazy false e? =
      { handle := h, result := fetchSpec s h.pk n m lazy, fetched := true } := by
  rw [get_dataset_fetch, fetchSpec]
  cases s.datasets.find? (fun r =>
      r.dataset_name = n && r.multi_id = m && some r.ulog_id = h.pk) with
  | none => rfl
  | some row =>
    cases e? with
    | none => rfl
    | some ex => simp

theorem get_dataset_nocaching (h : Handle) (s : Store) (n : String) (m : Nat)
    (lazy : Bool) :
    get_dataset h s n m lazy false =
      { handle := h, result := fetchSpec s h.pk n m lazy, fetched := true } := by
  rw [get_dataset]
  cases h.data_list.find? (dsMatch n m) with
  | none => exact get_dataset_fetch_nocaching h s n m lazy none
  | some ex => exact get_dataset_fetch_nocaching h s n m lazy (some ex)

theorem dsRowsSpec_mem (pk : Nat) :
    ∀ (dl : List DataSet) (did : Nat) (r : DatasetRow), r ∈ dsRowsSpec pk dl did →
      r.ulog_id = pk ∧ did ≤ r.id ∧ r.id < did + dl.length := by
  intro dl
  induction dl with
  | nil => intro did r hr; simp [dsRowsSpec] at hr
  | cons d rest ih =>
    intro did r hr
    rcases List.mem_cons.mp hr with h1 | h2
    · subst h1; simp
    · have := ih (did + 1) r h2
      simp only [List.length_cons]
      omega

theorem dsRowsSpec_keys (pk : Nat) :
    ∀ (dl : List DataSet) (did : Nat),
      (dsRowsSpec pk dl did).map (fun r => (r.dataset_name, r.multi_id)) =
        dl.map (fun d => (d.name, d.multi_id)) := by
  intro dl
  induction dl with
  | nil => intro did; rfl
  | cons d rest ih => intro did; simp [dsRowsSpec, ih (did + 1)]

theorem fieldRowsSpec_mem (ajson : Bool) :
    ∀ (dl : List DataSet) (did : Nat) (f : FieldRow), f ∈ fieldRowsSpec ajson dl did →
      did ≤ f.dataset_id ∧ f.dataset_id < did + dl.length := by
  intro dl
  induction dl with
  | nil => intro did f hf; simp [fieldRowsSpec] at hf
  | cons d rest ih =>
    intro did f hf
    rcases List.mem_append.mp hf with h1 | h2
    · obtain ⟨g, _, hg⟩ := List.mem_map.mp h1
      have : f.dataset_id = did := by rw [← hg]; rfl
      simp only [List.length_cons]
      omega
    · have := ih (did + 1) f h2
      simp only [List.length_cons]
      omega

/-- The `ULogMessageFormat` rows the save writes. -/
def fmRowsSpec (pk : Nat) : List (String × MessageFormat) → Nat → List FormatRow
  | [], _ => []
  | (name, _) :: rest, fid => FormatRow.mk fid name pk :: fmRowsSpec pk rest (fid + 1)

/-- The `ULogMessageFormatField` rows the save writes. -/
def ffRowsSpec : List (String × MessageFormat) → Nat → List FormatFieldRow
  | [], _ => []
  | (_, mf) :: rest, fid =>
    mf.fields.map (fun f => FormatFieldRow.mk f.1 f.2.1 f.2.2 fid) ++ ffRowsSpec rest (fid + 1)

theorem saveFormats_eq (pk : Nat) :
    ∀ (fmts : List (String × MessageFormat)) (fid : Nat),
      saveFormats pk fmts fid =
        (fmRowsSpec pk fmts fid, ffRowsSpec fmts fid, fid + fmts.length) := by
  intro fmts
  induction fmts with
  | nil => intro fid; simp [saveFormats, fmRowsSpec, ffRowsSpec]
  | cons p rest ih =>
    intro fid
    rw [show (p : String × MessageFormat) = (p.1, p.2) from rfl, saveFormats, ih (fid + 1)]
    simp only [fmRowsSpec, ffRowsSpec, List.length_cons]
    rw [show fid + (rest.length + 1) = fid + 1 + rest.length by omega]

theorem fmRowsSpec_mem (pk : Nat) :
    ∀ (fmts : List (String × MessageFormat)) (fid : Nat) (r : FormatRow),
      r ∈ fmRowsSpec pk fmts fid →
      r.ulog_id = pk ∧ fid ≤ r.id ∧ r.id < fid + fmts.length := by
  intro fmts
  induction fmts with
  | nil => intro fid r hr; simp [fmRowsSpec] at hr
  | cons p rest ih =>
    intro fid r hr
    rw [show (p : String × MessageFormat) = (p.1, p.2) from rfl, fmRowsSpec] at hr
    rcases List.mem_cons.mp hr with h1 | h2
    · subst h1; simp
    · have := ih (fid + 1) r h2
      simp only [List.length_cons]
      omega

theorem ffRowsSpec_mem :
    ∀ (fmts : List (String × MessageFormat)) (fid : Nat) (f : FormatFieldRow),
      f ∈ ffRowsSpec fmts fid →
      fid ≤ f.message_id ∧ f.message_id < fid + fmts.length := by
  intro fmts
  induction fmts with
  | nil => intro fid f hf; simp [ffRowsSpec] at hf
  | cons p rest ih =>
    intro fid f hf
    rw [show (p : String × MessageFormat) = (p.1, p.2) from rfl, ffRowsSpec] at hf
    rcases List.mem_append.mp hf with h1 | h2
    · obtain ⟨g, _, hg⟩ := List.mem_map.mp h1
      have : f.message_id = fid := by rw [← hg]
      simp only [List.length_cons]
      omega
    · have := ih (fid + 1) f h2
      simp only [List.length_cons]
      omega

/-- The `ULogMessageInfoMultipleList` rows the save writes for one entry. -/
def ilRowsSpec (mid : Nat) : List (List Val) → Nat → Nat → List InfoListRow
  | [], _, _ => []
  | _ :: rest, idx, lid => InfoListRow.mk lid idx mid :: ilRowsSpec mid rest (idx + 1) (lid + 1)

/-- The `ULogMessageInfoMultipleListElement` rows the save writes for one entry. -/
def ieRowsSpec : List (List Val) → Nat → List InfoElementRow
  | [], _ => []
  | l :: rest, lid =>
    l.enum.map (fun p => InfoElementRow.mk p.1 p.2 lid) ++ ieRowsSpec rest (lid + 1)

theorem saveInfoLists_eq (mid : Nat) :
    ∀ (lists : List (List Val)) (idx lid : Nat),
      saveInfoLists mid lists idx lid =
        (ilRowsSpec mid lists idx lid, ieRowsSpec lists lid, lid + lists.length) := by
  intro lists
  induction lists with
  | nil => intro idx lid; simp [saveInfoLists, ilRowsSpec, ieRowsSpec]
  | cons l rest ih =>
    intro idx lid
    rw [saveInfoLists, ih (idx + 1) (lid + 1)]
    simp only [ilRowsSpec, ieRowsSpec, List.length_cons]
    rw [show lid + (rest.length + 1) = lid + 1 + rest.length by omega]

/-- The `ULogMessageInfoMultiple` rows the save writes. -/
def imRowsSpec (pk : Nat) (types : List (String × String)) :
    List (String × List (List Val)) → Nat → List InfoMultipleRow
  | [], _ => []
  | (k, _) :: rest, mid =>
    InfoMultipleRow.mk mid k ((dictGet? types k).getD "") pk :: imRowsSpec pk types rest (mid + 1)

/-- All inner-list rows the save writes across the multi-info entries. -/
def imListRowsSpec (entries : List (String × List (List Val))) (mid lid : Nat) :
    List InfoListRow :=
  match entries with
  | [] => []
  | (_, lists) :: rest =>
    ilRowsSpec mid lists 0 lid ++ imListRowsSpec rest (mid + 1) (lid + lists.length)

/-- All element rows the save writes across the multi-info entries. -/
def imElemRowsSpec (entries : List (String × List (List Val))) (lid : Nat) :
    List InfoElementRow :=
  match entries with
  | [] => []
  | (_, lists) :: rest => ieRowsSpec lists lid ++ imElemRowsSpec rest (lid + lists.length)

/-- Total number of inner lists across the multi-info entries. -/
def imListCount (entries : List (String × List (List Val))) : Nat :=
  match entries with
  | [] => 0
  | (_, lists) :: rest => lists.length + imListCount rest

theorem saveInfoMultiples_ok (pk : Nat) (types : List (String × String)) :
    ∀ (entries : List (String × List (List Val))) (mid lid : Nat),
      (∀ k ∈ dictKeys entries, k ∈ dictKeys types) →
      saveInfoMultiples pk types entries mid lid =
        Except.ok (imRowsSpec pk types entries mid, imListRowsSpec entries mid lid,
          imElemRowsSpec entries lid, mid + entries.length, lid + imListCount entries) := by
  intro entries
  induction entries with
  | nil =>
    intro mid lid _
    simp [saveInfoMultiples, imRowsSpec, imListRowsSpec, imElemRowsSpec, imListCount]
  | cons p rest ih =>
    intro mid lid hcov
    have hk : p.1 ∈ dictKeys types :=
      hcov p.1 (List.mem_map_of_mem (fun q => q.1) (List.mem_cons_self p rest))
    obtain ⟨ty, hty⟩ := Option.isSome_iff_exists.mp (dictGet?_isSome types p.1 hk)
    have hrest := ih (mid + 1) (lid + p.2.length)
      (fun k hk' => hcov k (List.mem_cons_of_mem p.1 hk'))
    rw [show (p : String × List (List Val)) = (p.1, p.2) from rfl]
    simp only [saveInfoMultiples, hty, saveInfoLists_eq, hrest,
      imRowsSpec, imListRowsSpec, imElemRowsSpec, imListCount,
      List.length_cons, Option.getD_some,
      show mid + 1 + rest.length = mid + (rest.length + 1) by omega,
      show lid + p.2.length + imListCount rest = lid + (p.2.length + imListCount rest) by omega]

theorem dictSet_get_self {α : Type} [DecidableEq α] {β : Type} :
    ∀ (l : List (α × β)) (k : α) (v : β), dictGet? l k = some v → dictSet l k v = l := by
  intro l k v
  induction l with
  | nil => intro hg; simp [dictGet?] at hg
  | cons p rest ih =>
    intro hg
    by_cases he : p.1 = k
    · rw [show (p : α × β) = (p.1, p.2) from rfl] at hg ⊢
      rw [he] at hg ⊢
      rw [dictGet?_cons_self] at hg
      rw [dictSet, if_pos rfl, Option.some_inj.mp hg]
    · rw [show (p : α × β) = (p.1, p.2) from rfl] at hg ⊢
      rw [dictGet?_cons_ne _ _ _ _ he] at hg
      rw [dictSet, if_neg he, ih hg]

theorem saveInfos_ok (pk : Nat) (types : List (String × String)) :
    ∀ kvs : List (String × Val), (∀ k ∈ dictKeys kvs, k ∈ dictKeys types) →
      saveInfos pk types kvs = Except.ok (kvs.map (fun p =>
        InfoRow.mk p.1 p.2 ((dictGet? types p.1).getD "") pk)) := by
  intro kvs
  induction kvs with
  | nil => intro _; rfl
  | cons p rest ih =>
    intro hcov
    obtain ⟨ty, hty⟩ := Option.isSome_iff_exists.mp (dictGet?_isSome types p.1
      (hcov p.1 (List.mem_map_of_mem (fun q => q.1) (List.mem_cons_self p rest))))
    rw [show (p : String × Val) = (p.1, p.2) from rfl]
    simp only [saveInfos, hty, ih (fun k hk => hcov k (List.mem_cons_of_mem p.1 hk)),
      List.map_cons, Option.getD_some]

theorem fetchSpec_saved (pk : Nat) (ajson lazy : Bool) (s : Store) :
    ∀ (dl : List DataSet) (did : Nat) (olds : List DatasetRow) (oldf : List FieldRow),
      (∀ d ∈ dl, DataSetWF d) →
      (dl.map (fun d => (d.name, d.multi_id))).Nodup →
      (∀ r ∈ olds, ∀ d ∈ dl,
        ¬(r.dataset_name = d.name ∧ r.multi_id = d.multi_id ∧ r.ulog_id = pk)) →
      (∀ f ∈ oldf, f.dataset_id < did) →
      s.datasets = olds ++ dsRowsSpec pk dl did →
      s.fields = oldf ++ fieldRowsSpec ajson dl did →
      ∀ d ∈ dl,
        fetchSpec s (some pk) d.name d.multi_id lazy =
          Except.ok (if lazy then DataSet.mk d.name d.multi_id d.msg_id d.timestamp_idx [] []
            else d) := by
  intro dl
  induction dl with
  | nil =>
    intro did olds oldf _ _ _ _ _ _ d hd
    simp at hd
  | cons d0 rest ih =>
    intro did olds oldf hwf hnodup holds holdf hds hfs d hd
    have hd0wf : DataSetWF d0 := hwf d0 (List.mem_cons_self d0 rest)
    rcases List.mem_cons.mp hd with heq | hmem
    · subst heq
      have hfind : s.datasets.find? (fun r =>
          r.dataset_name = d.name && r.multi_id = d.multi_id && some r.ulog_id = some pk) =
          some (DatasetRow.mk did d.name d.multi_id d.msg_id d.timestamp_idx pk) := by
        rw [hds, dsRowsSpec, find?_append_skip]
        · rw [List.find?_cons_of_pos]
          simp
        · intro r hr
          have hne := holds r hr d (List.mem_cons_self d rest)
          simp only [Bool.and_eq_true, decide_eq_true_eq, Option.some.injEq, not_and]
          intro h1 h2
          exact hne ⟨h1.1, h1.2, h2⟩
      rw [fetchSpec, hfind]
      cases lazy with
      | true => simp
      | false =>
        have hfilter : s.fields.filter (fun f => f.dataset_id = did) =
            d.field_data.map (fieldRowSpec ajson did d) := by
          rw [hfs, fieldRowsSpec, List.filter_append, List.filter_append]
          rw [List.filter_eq_nil_iff.mpr (fun f hf => by
            have := holdf f hf
            simp only [decide_eq_true_eq]
            omega)]
          rw [List.filter_eq_self.mpr (fun f hf => by
            obtain ⟨g, _, hg⟩ := List.mem_map.mp hf
            rw [← hg]
            simp [fieldRowSpec])]
          rw [List.filter_eq_nil_iff.mpr (fun f hf => by
            have := (fieldRowsSpec_mem ajson rest (did + 1) f hf).1
            simp only [decide_eq_true_eq]
            omega)]
          simp
        have hfields : (d.field_data.map (fieldRowSpec ajson did d)).map
            (fun f => FieldData.mk f.topic_name f.data_type) = d.field_data := by
          rw [List.map_map]
          calc d.field_data.map ((fun f => FieldData.mk f.topic_name f.data_type) ∘
                fieldRowSpec ajson did d)
              = d.field_data.map id := List.map_congr_left (fun f _ => rfl)
            _ = d.field_data := List.map_id _
        have hkeysnodup : (dictKeys d.data).Nodup := by
          rw [hd0wf.keys_eq]; exact hd0wf.keys_nodup
        have hdata : (d.field_data.map (fieldRowSpec ajson did d)).foldl
            (fun acc f => dictSet acc f.topic_name f.value_array) [] = d.data := by
          rw [List.foldl_map]
          have hstep : (fun (acc : List (String × List Val)) (f : FieldData) =>
              dictSet acc (fieldRowSpec ajson did d f).topic_name
                (fieldRowSpec ajson did d f).value_array) =
              fun acc f => dictSet acc f.field_name ((dictGet? d.data f.field_name).getD []) :=
            rfl
          rw [hstep]
          have hmapfold : d.field_data.foldl
              (fun acc f => dictSet acc f.field_name ((dictGet? d.data f.field_name).getD [])) []
              = (d.field_data.map (fun f =>
                  (f.field_name, (dictGet? d.data f.field_name).getD []))).foldl
                  (fun acc p => dictSet acc p.1 p.2) [] := by
            rw [List.foldl_map]
          rw [hmapfold]
          have hkv : d.field_data.map (fun f =>
              (f.field_name, (dictGet? d.data f.field_name).getD [])) =
              (dictKeys d.data).map (fun k => (k, (dictGet? d.data k).getD [])) := by
            rw [hd0wf.keys_eq, List.map_map]
            rfl
          rw [hkv, dict_eta d.data hkeysnodup [],
            foldl_dictSet_append d.data hkeysnodup [] (fun k _ => by simp [dictKeys])]
          simp
        simp only [Bool.false_eq_true, if_false, hfilter, hfields, hdata]
    · have hkey0 : (d0.name, d0.multi_id) ∉ rest.map (fun d => (d.name, d.multi_id)) := by
        simp only [List.map_cons] at hnodup
        exact (List.nodup_cons.mp hnodup).1
      refine ih (did + 1)
        (olds ++ [DatasetRow.mk did d0.name d0.multi_id d0.msg_id d0.timestamp_idx pk])
        (oldf ++ d0.field_data.map (fieldRowSpec ajson did d0))
        (fun d' hd' => hwf d' (List.mem_cons_of_mem d0 hd'))
        (by simp only [List.map_cons] at hnodup; exact (List.nodup_cons.mp hnodup).2)
        ?_ ?_ ?_ ?_ d hmem
      · intro r hr d' hd'
        rcases List.mem_append.mp hr with h1 | h2
        · exact holds r h1 d' (List.mem_cons_of_mem d0 hd')
        · simp only [List.mem_singleton] at h2
          subst h2
          rintro ⟨he1, he2, _⟩
          exact hkey0 (by
            have : (d0.name, d0.multi_id) = (d'.name, d'.multi_id) := by
              simp only at he1 he2
              rw [he1, he2]
            rw [this]
            exact List.mem_map_of_mem (fun d => (d.name, d.multi_id)) hd')
      · intro f hf
        rcases List.mem_append.mp hf with h1 | h2
        · have := holdf f h1; omega
        · obtain ⟨g, _, hg⟩ := List.mem_map.mp h2
          have : f.dataset_id = did := by rw [← hg]; rfl
          omega
      · rw [hds, dsRowsSpec, List.append_cons]
      · rw [hfs, fieldRowsSpec, ← List.append_assoc]

theorem loadDatasets_eq (s : Store) (lazy : Bool) :
    ∀ (pairs : List (String × Nat)) (ds : List DataSet) (h : Handle),
      List.Forall₂ (fun p d => fetchSpec s h.pk p.1 p.2 lazy = Except.ok d) pairs ds →
      loadDatasets s lazy h pairs =
        Except.ok { h with data_list := h.data_list ++ ds } := by
  intro pairs
  induction pairs with
  | nil =>
    intro ds h hf
    cases hf
    simp [loadDatasets]
  | cons p rest ih =>
    intro ds h hf
    cases hf with
    | cons hd htail =>
      rename_i d ds'
      rw [show (p : String × Nat) = (p.1, p.2) from rfl, loadDatasets,
        get_dataset_nocaching h s p.1 p.2 lazy]
      simp only [hd]
      have := ih ds' { h with data_list := h.data_list ++ [d] } htail
      rw [this]
      simp [List.append_assoc]

/-- The store a successful save produces: every table extended by the
rows of the saved log, every consumed rowid counter advanced. -/
def savedStore (h : Handle) (s : Store) (ajson : Bool) : Store :=
  let pk := s.next_ulog_id
  { s with
    ulog := s.ulog ++ [ULogRow.mk pk h.file_version h.start_timestamp h.last_timestamp
      (String.mk (h.compat_flags.map Char.ofNat)) (String.mk (h.incompat_flags.map Char.ofNat))
      h.sync_seq_cnt h.has_sync h.sha256sum]
    offsets := s.offsets ++ h.appended_offsets.enum.map (fun p => OffsetRow.mk p.1 p.2 pk)
    datasets := s.datasets ++ dsRowsSpec pk h.data_list s.next_dataset_id
    fields := s.fields ++ fieldRowsSpec ajson h.data_list s.next_dataset_id
    dropouts := s.dropouts ++ h.dropouts.map (fun d => DropoutRow.mk d.timestamp d.duration pk)
    loggings := s.loggings ++
      h.logged_messages.map (fun m => LoggingRow.mk m.log_level m.timestamp m.message pk)
    loggings_tagged := s.loggings_tagged ++ h.logged_messages_tagged.flatMap
      (fun p => p.2.map (fun m => LoggingTaggedRow.mk m.log_level m.timestamp p.1 m.message pk))
    formats := s.formats ++ fmRowsSpec pk h.message_formats s.next_format_id
    format_fields := s.format_fields ++ ffRowsSpec h.message_formats s.next_format_id
    infos := s.infos ++ h.msg_info_dict.map (fun p =>
      InfoRow.mk p.1 p.2 ((dictGet? h.msg_info_dict_types p.1).getD "") pk)
    info_multiples := s.info_multiples ++
      imRowsSpec pk h.msg_info_multiple_dict_types h.msg_info_multiple_dict
        s.next_info_multiple_id
    info_lists := s.info_lists ++
      imListRowsSpec h.msg_info_multiple_dict s.next_info_multiple_id s.next_info_list_id
    info_elements := s.info_elements ++
      imElemRowsSpec h.msg_info_multiple_dict s.next_info_list_id
    initial_params := s.initial_params ++
      h.initial_parameters.map (fun p => InitialParamRow.mk p.1 p.2 pk)
    default_params := s.default_params ++ h.default_parameters.flatMap
      (fun q => q.2.map (fun p => DefaultParamRow.mk q.1 p.1 p.2 pk))
    changed_params := s.changed_params ++
      h.changed_parameters.map (fun c => ChangedParamRow.mk c.1 c.2.1 c.2.2 pk)
    next_ulog_id := pk + 1
    next_dataset_id := s.next_dataset_id + h.data_list.length
    next_format_id := s.next_format_id + h.message_formats.length
    next_info_multiple_id := s.next_info_multiple_id + h.msg_info_multiple_dict.length
    next_info_list_id := s.next_info_list_id + imListCount h.msg_info_multiple_dict }

theorem save_ok (h : Handle) (s : Store) (ajson : Bool)
    (hwf : HandleWF h) (hpk : h.pk = none)
    (hdup : primary_key_from_sha256sum s h.sha256sum = none) :
    save h s ajson = { handle := { h with pk := some s.next_ulog_id }
                       store := savedStore h s ajson
                       result := Except.ok s.next_ulog_id } := by
  have hcov1 : ∀ k ∈ dictKeys h.msg_info_dict, k ∈ dictKeys h.msg_info_dict_types := by
    intro k hk; rw [hwf.info_types_keys]; exact hk
  have hcov2 : ∀ k ∈ dictKeys h.msg_info_multiple_dict,
      k ∈ dictKeys h.msg_info_multiple_dict_types := by
    intro k hk; rw [hwf.multi_types_keys]; exact hk
  simp only [save, hpk, Option.isSome_none, Bool.false_eq_true, if_false, hdup,
    saveDatasets_ok ajson s.next_ulog_id h.data_list s.next_dataset_id hwf.ds_wf,
    saveFormats_eq,
    saveInfos_ok s.next_ulog_id h.msg_info_dict_types h.msg_info_dict hcov1,
    saveInfoMultiples_ok s.next_ulog_id h.msg_info_multiple_dict_types
      h.msg_info_multiple_dict s.next_info_multiple_id s.next_info_list_id hcov2,
    savedStore]

theorem ilRowsSpec_mem (mid : Nat) :
    ∀ (lists : List (List Val)) (idx lid : Nat) (r : InfoListRow),
      r ∈ ilRowsSpec mid lists idx lid →
      r.message_id = mid ∧ idx ≤ r.series_index ∧ lid ≤ r.id ∧ r.id < lid + lists.length := by
  intro lists
  induction lists with
  | nil => intro idx lid r hr; simp [ilRowsSpec] at hr
  | cons l rest ih =>
    intro idx lid r hr
    rcases List.mem_cons.mp hr with h1 | h2
    · subst h1; simp
    · have := ih (idx + 1) (lid + 1) r h2
      simp only [List.length_cons]
      omega

theorem ieRowsSpec_mem :
    ∀ (lists : List (List Val)) (lid : Nat) (r : InfoElementRow),
      r ∈ ieRowsSpec lists lid → lid ≤ r.list_id ∧ r.list_id < lid + lists.length := by
  intro lists
  induction lists with
  | nil => intro lid r hr; simp [ieRowsSpec] at hr
  | cons l rest ih =>
    intro lid r hr
    rcases List.mem_append.mp hr with h1 | h2
    · obtain ⟨p, _, hp⟩ := List.mem_map.mp h1
      have : r.list_id = lid := by rw [← hp]
      simp only [List.length_cons]
      omega
    · have := ih (lid + 1) r h2
      simp only [List.length_cons]
      omega

theorem imListRowsSpec_mem :
    ∀ (entries : List (String × List (List Val))) (mid lid : Nat) (r : InfoListRow),
      r ∈ imListRowsSpec entries mid lid →
      mid ≤ r.message_id ∧ lid ≤ r.id := by
  intro entries
  induction entries with
  | nil => intro mid lid r hr; simp [imListRowsSpec] at hr
  | cons p rest ih =>
    intro mid lid r hr
    rw [show (p : String × List (List Val)) = (p.1, p.2) from rfl, imListRowsSpec] at hr
    rcases List.mem_append.mp hr with h1 | h2
    · have := ilRowsSpec_mem mid p.2 0 lid r h1
      omega
    · have := ih (mid + 1) (lid + p.2.length) r h2
      omega

theorem imElemRowsSpec_mem :
    ∀ (entries : List (String × List (List Val))) (lid : Nat) (r : InfoElementRow),
      r ∈ imElemRowsSpec entries lid → lid ≤ r.list_id := by
  intro entries
  induction entries with
  | nil => intro lid r hr; simp [imElemRowsSpec] at hr
  | cons p rest ih =>
    intro lid r hr
    rw [show (p : String × List (List Val)) = (p.1, p.2) from rfl, imElemRowsSpec] at hr
    rcases List.mem_append.mp hr with h1 | h2
    · have := ieRowsSpec_mem p.2 lid r h1
      omega
    · have := ih (lid + p.2.length) r h2
      omega

theorem imRowsSpec_mem (pk : Nat) (types : List (String × String)) :
    ∀ (entries : List (String × List (List Val))) (mid : Nat) (r : InfoMultipleRow),
      r ∈ imRowsSpec pk types entries mid →
      r.ulog_id = pk ∧ mid ≤ r.id := by
  intro entries
  induction entries with
  | nil => intro mid r hr; simp [imRowsSpec] at hr
  | cons p rest ih =>
    intro mid r hr
    rw [show (p : String × List (List Val)) = (p.1, p.2) from rfl, imRowsSpec] at hr
    rcases List.mem_cons.mp hr with h1 | h2
    · subst h1; simp
    · have := ih (mid + 1) r h2
      omega

theorem ilRowsSpec_pairwise (mid : Nat) :
    ∀ (lists : List (List Val)) (idx lid : Nat),
      (ilRowsSpec mid lists idx lid).Pairwise (fun a b => infoListLe a b = true) := by
  intro lists
  induction lists with
  | nil => intro idx lid; simp [ilRowsSpec]
  | cons l rest ih =>
    intro idx lid
    rw [ilRowsSpec, List.pairwise_cons]
    refine ⟨fun r hr => ?_, ih (idx + 1) (lid + 1)⟩
    have := (ilRowsSpec_mem mid rest (idx + 1) (lid + 1) r hr).2.1
    simp only [infoListLe, decide_eq_true_eq]
    omega

theorem enumRows_pairwise (lid : Nat) (l : List Val) :
    (l.enum.map (fun p => InfoElementRow.mk p.1 p.2 lid)).Pairwise
      (fun a b => infoElementLe a b = true) := by
  rw [List.pairwise_map]
  refine (pairwise_enum_lt l).imp ?_
  intro a b hab
  simp only [infoElementLe, decide_eq_true_eq]
  omega

theorem ieDecode (mid : Nat) :
    ∀ (lists : List (List Val)) (idx lid : Nat) (olde taile e : List InfoElementRow),
      (∀ r ∈ olde, r.list_id < lid) →
      (∀ r ∈ taile, lid + lists.length ≤ r.list_id) →
      e = olde ++ ieRowsSpec lists lid ++ taile →
      (ilRowsSpec mid lists idx lid).map (fun l =>
        (sortByLe infoElementLe (e.filter (fun r => r.list_id = l.id))).map
          (fun r => r.value)) = lists := by
  intro lists
  induction lists with
  | nil => intro idx lid olde taile e _ _ _; rfl
  | cons l0 rest ih =>
    intro idx lid olde taile e holde htaile he
    have hrows : e = (olde ++ l0.enum.map (fun p => InfoElementRow.mk p.1 p.2 lid)) ++
        ieRowsSpec rest (lid + 1) ++ taile := by
      rw [he, ieRowsSpec]
      simp [List.append_assoc]
    rw [ilRowsSpec, List.map_cons]
    have hfilter : e.filter (fun r => r.list_id = lid) =
        l0.enum.map (fun p => InfoElementRow.mk p.1 p.2 lid) := by
      rw [hrows, List.filter_append, List.filter_append, List.filter_append]
      rw [List.filter_eq_nil_iff.mpr (fun r hr => by
        have := holde r hr
        simp only [decide_eq_true_eq]
        omega)]
      rw [List.filter_eq_self.mpr (fun r hr => by
        obtain ⟨p, _, hp⟩ := List.mem_map.mp hr
        rw [← hp]
        simp)]
      rw [List.filter_eq_nil_iff.mpr (fun r hr => by
        have := (ieRowsSpec_mem rest (lid + 1) r hr).1
        simp only [decide_eq_true_eq]
        omega)]
      rw [List.filter_eq_nil_iff.mpr (fun r hr => by
        have := htaile r hr
        simp only [List.length_cons, decide_eq_true_eq] at this ⊢
        omega)]
      simp
    have hhead : (sortByLe infoElementLe (e.filter (fun r => r.list_id = lid))).map
        (fun r => r.value) = l0 := by
      rw [hfilter, sortByLe_eq_self (enumRows_pairwise lid l0), List.map_map]
      exact List.enum_map_snd l0
    rw [hhead]
    congr 1
    refine ih (idx + 1) (lid + 1)
      (olde ++ l0.enum.map (fun p => InfoElementRow.mk p.1 p.2 lid)) taile e ?_ ?_ ?_
    · intro r hr
      rcases List.mem_append.mp hr with h1 | h2
      · have := holde r h1; omega
      · obtain ⟨p, _, hp⟩ := List.mem_map.mp h2
        have : r.list_id = lid := by rw [← hp]
        omega
    · intro r hr
      have := htaile r hr
      simp only [List.length_cons] at this
      omega
    · rw [hrows]

/-- One multi-info entry decodes back to its ordered list of lists. -/
theorem infoMultipleLists_entry (s : Store) (mid lid : Nat) (lists : List (List Val))
    (oldl taill : List InfoListRow) (olde taile : List InfoElementRow)
    (holdl : ∀ r ∈ oldl, r.message_id ≠ mid)
    (htaill : ∀ r ∈ taill, r.message_id ≠ mid)
    (hl : s.info_lists = oldl ++ ilRowsSpec mid lists 0 lid ++ taill)
    (holde : ∀ r ∈ olde, r.list_id < lid)
    (htaile : ∀ r ∈ taile, lid + lists.length ≤ r.list_id)
    (he : s.info_elements = olde ++ ieRowsSpec lists lid ++ taile) :
    infoMultipleLists s mid = lists := by
  rw [infoMultipleLists]
  have hfilter : s.info_lists.filter (fun l => l.message_id = mid) =
      ilRowsSpec mid lists 0 lid := by
    rw [hl, List.filter_append, List.filter_append]
    rw [List.filter_eq_nil_iff.mpr (fun r hr => by
      have := holdl r hr
      simp only [decide_eq_true_eq]
      exact this)]
    rw [List.filter_eq_self.mpr (fun r hr => by
      have := (ilRowsSpec_mem mid lists 0 lid r hr).1
      simp only [decide_eq_true_eq]
      exact this)]
    rw [List.filter_eq_nil_iff.mpr (fun r hr => by
      have := htaill r hr
      simp only [decide_eq_true_eq]
      exact this)]
    simp
  rw [hfilter, sortByLe_eq_self (ilRowsSpec_pairwise mid lists 0 lid)]
  exact ieDecode mid lists 0 lid olde taile s.info_elements holde htaile he

theorem imFold_saved (pk : Nat) (types : List (String × String)) (s : Store) :
    ∀ (entries : List (String × List (List Val))) (mid lid : Nat)
      (oldl : List InfoListRow) (olde : List InfoElementRow),
      (dictKeys entries).Nodup →
      (∀ r ∈ oldl, r.message_id < mid) →
      (∀ r ∈ olde, r.list_id < lid) →
      s.info_lists = oldl ++ imListRowsSpec entries mid lid →
      s.info_elements = olde ++ imElemRowsSpec entries lid →
      ∀ acc : List (String × List (List Val)), (∀ k ∈ dictKeys entries, k ∉ dictKeys acc) →
        (imRowsSpec pk types entries mid).foldl
          (fun acc r => dictSet acc r.key (infoMultipleLists s r.id)) acc = acc ++ entries := by
  intro entries
  induction entries with
  | nil =>
    intro mid lid oldl olde _ _ _ _ _ acc _
    simp [imRowsSpec]
  | cons p rest ih =>
    intro mid lid oldl olde hnodup holdl holde hl he acc hdisj
    rw [show (p : String × List (List Val)) = (p.1, p.2) from rfl] at hl he ⊢
    rw [imRowsSpec, List.foldl_cons]
    rw [imListRowsSpec] at hl
    rw [imElemRowsSpec] at he
    have hentry : infoMultipleLists s mid = p.2 := by
      refine infoMultipleLists_entry s mid lid p.2 oldl
        (imListRowsSpec rest (mid + 1) (lid + p.2.length)) olde
        (imElemRowsSpec rest (lid + p.2.length)) ?_ ?_ ?_ holde ?_ ?_
      · intro r hr
        have := holdl r hr
        omega
      · intro r hr
        have := (imListRowsSpec_mem rest (mid + 1) (lid + p.2.length) r hr).1
        omega
      · rw [hl, List.append_assoc]
      · intro r hr
        exact imElemRowsSpec_mem rest (lid + p.2.length) r hr
      · rw [he, List.append_assoc]
    have hknotin : p.1 ∉ dictKeys acc :=
      hdisj p.1 (List.mem_map_of_mem (fun q => q.1) (List.mem_cons_self p rest))
    have hstep : dictSet acc p.1 (infoMultipleLists s mid) = acc ++ [(p.1, p.2)] := by
      rw [hentry, dictSet_of_notMem acc p.1 p.2 hknotin]
    show List.foldl _ (dictSet acc p.1 (infoMultipleLists s mid)) _ = _
    rw [hstep]
    have hpn : p.1 ∉ dictKeys rest := by
      simp only [dictKeys, List.map_cons] at hnodup
      exact (List.nodup_cons.mp hnodup).1
    rw [ih (mid + 1) (lid + p.2.length) (oldl ++ ilRowsSpec mid p.2 0 lid)
      (olde ++ ieRowsSpec p.2 lid)
      (by simp only [dictKeys, List.map_cons] at hnodup
          exact (List.nodup_cons.mp hnodup).2)
      (fun r hr => by
        rcases List.mem_append.mp hr with h1 | h2
        · have := holdl r h1; omega
        · have := (ilRowsSpec_mem mid p.2 0 lid r h2).1; omega)
      (fun r hr => by
        rcases List.mem_append.mp hr with h1 | h2
        · have := holde r h1; omega
        · exact (ieRowsSpec_mem p.2 lid r h2).2)
      (by rw [hl, List.append_assoc])
      (by rw [he, List.append_assoc])
      (acc ++ [(p.1, p.2)])
      (fun k hk => by
        simp only [dictKeys, List.map_append, List.map_cons, List.map_nil]
        intro hm
        rcases List.mem_append.mp hm with h1 | h2
        · exact hdisj k (List.mem_cons_of_mem p.1 hk) h1
        · simp only [List.mem_singleton] at h2
          exact hpn (h2 ▸ hk))]
    simp

theorem imRows_typesFold (pk : Nat) (types : List (String × String)) :
    ∀ (entries : List (String × List (List Val))) (mid : Nat)
      (acc : List (String × String)),
      (dictKeys entries).Nodup →
      (∀ k ∈ dictKeys entries, k ∉ dictKeys acc) →
      (imRowsSpec pk types entries mid).foldl
        (fun acc r => dictSet acc r.key r.typename) acc =
        acc ++ entries.map (fun p => (p.1, (dictGet? types p.1).getD "")) := by
  intro entries
  induction entries with
  | nil => intro mid acc _ _; simp [imRowsSpec]
  | cons p rest ih =>
    intro mid acc hnodup hdisj
    have hknotin : p.1 ∉ dictKeys acc :=
      hdisj p.1 (List.mem_map_of_mem (fun q => q.1) (List.mem_cons_self p rest))
    have hpn : p.1 ∉ dictKeys rest := by
      simp only [dictKeys, List.map_cons] at hnodup
      exact (List.nodup_cons.mp hnodup).1
    rw [show (p : String × List (List Val)) = (p.1, p.2) from rfl, imRowsSpec,
      List.foldl_cons]
    show List.foldl _ (dictSet acc p.1 ((dictGet? types p.1).getD "")) _ = _
    rw [dictSet_of_notMem acc p.1 _ hknotin]
    rw [ih (mid + 1) (acc ++ [(p.1, (dictGet? types p.1).getD "")])
      (by simp only [dictKeys, List.map_cons] at hnodup
          exact (List.nodup_cons.mp hnodup).2)
      (fun k hk => by
        simp only [dictKeys, List.map_append, List.map_cons, List.map_nil]
        intro hm
        rcases List.mem_append.mp hm with h1 | h2
        · exact hdisj k (List.mem_cons_of_mem p.1 hk) h1
        · simp only [List.mem_singleton] at h2
          exact hpn (h2 ▸ hk))]
    simp


theorem tagFold_known (pk t : Nat) :
    ∀ (msgs : List MessageLoggingTagged) (acc : List (Nat × List MessageLoggingTagged))
      (cur : List MessageLoggingTagged),
      dictGet? acc t = some cur → (∀ m ∈ msgs, m.tag = t) →
      (msgs.map (fun m => LoggingTaggedRow.mk m.log_level m.timestamp t m.message pk)).foldl
        (fun acc r =>
          let old := match dictGet? acc r.tag with
            | some msgs => msgs
            | none => []
          dictSet acc r.tag
            (old ++ [MessageLoggingTagged.mk r.log_level r.tag r.timestamp r.message])) acc
        = dictSet acc t (cur ++ msgs) := by
  intro msgs
  induction msgs with
  | nil =>
    intro acc cur hget _
    simp only [List.map_nil, List.foldl_nil, List.append_nil]
    exact (dictSet_get_self acc t cur hget).symm
  | cons m ms ih =>
    intro acc cur hget htags
    have hmt : m.tag = t := htags m (List.mem_cons_self m ms)
    have hm : MessageLoggingTagged.mk m.log_level t m.timestamp m.message = m := by
      rw [← hmt]
    simp only [List.map_cons, List.foldl_cons, hget, hm]
    rw [ih (dictSet acc t (cur ++ [m])) (cur ++ [m]) (dictGet?_dictSet_self acc t (cur ++ [m]))
      (fun m' hm' => htags m' (List.mem_cons_of_mem m hm'))]
    rw [dictSet_dictSet_self, List.append_assoc, List.singleton_append]

theorem tagFold_new (pk t : Nat) (msgs : List MessageLoggingTagged)
    (hne : msgs ≠ []) (htags : ∀ m ∈ msgs, m.tag = t) :
    ∀ acc : List (Nat × List MessageLoggingTagged), t ∉ dictKeys acc →
      (msgs.map (fun m => LoggingTaggedRow.mk m.log_level m.timestamp t m.message pk)).foldl
        (fun acc r =>
          let old := match dictGet? acc r.tag with
            | some msgs => msgs
            | none => []
          dictSet acc r.tag
            (old ++ [MessageLoggingTagged.mk r.log_level r.tag r.timestamp r.message])) acc
        = acc ++ [(t, msgs)] := by
  cases msgs with
  | nil => exact absurd rfl hne
  | cons m ms =>
    intro acc hnot
    have hmt : m.tag = t := htags m (List.mem_cons_self m ms)
    have hm : MessageLoggingTagged.mk m.log_level t m.timestamp m.message = m := by
      rw [← hmt]
    have hgn : dictGet? acc t = none := dictGet?_eq_none acc t hnot
    simp only [List.map_cons, List.foldl_cons, hgn, hm, List.nil_append]
    rw [dictSet_of_notMem acc t [m] hnot]
    have hget1 : dictGet? (acc ++ [(t, [m])]) t = some [m] := by
      rw [dictGet?_append_of_notMem acc [(t, [m])] t hnot, dictGet?_cons_self]
    rw [tagFold_known pk t ms (acc ++ [(t, [m])]) [m] hget1
      (fun m' hm' => htags m' (List.mem_cons_of_mem m hm'))]
    rw [List.singleton_append, dictSet_append_of_notMem acc [(t, [m])] t (m :: ms) hnot]
    simp [dictSet]

theorem tagFold_all (pk : Nat) :
    ∀ (tg : List (Nat × List MessageLoggingTagged)),
      (dictKeys tg).Nodup → (∀ p ∈ tg, p.2 ≠ []) →
      (∀ p ∈ tg, ∀ m ∈ p.2, m.tag = p.1) →
      ∀ acc : List (Nat × List MessageLoggingTagged),
        (∀ k ∈ dictKeys tg, k ∉ dictKeys acc) →
      (tg.flatMap (fun p => p.2.map (fun m =>
          LoggingTaggedRow.mk m.log_level m.timestamp p.1 m.message pk))).foldl
        (fun acc r =>
          let old := match dictGet? acc r.tag with
            | some msgs => msgs
            | none => []
          dictSet acc r.tag
            (old ++ [MessageLoggingTagged.mk r.log_level r.tag r.timestamp r.message])) acc
        = acc ++ tg := by
  intro tg
  induction tg with
  | nil => intro _ _ _ acc _; simp
  | cons p rest ih =>
    intro hnodup hne htags acc hdisj
    have hpn : p.1 ∉ dictKeys rest := by
      simp only [dictKeys, List.map_cons] at hnodup
      exact (List.nodup_cons.mp hnodup).1
    rw [List.flatMap_cons, List.foldl_append]
    rw [tagFold_new pk p.1 p.2 (hne p (List.mem_cons_self p rest))
      (htags p (List.mem_cons_self p rest)) acc
      (hdisj p.1 (List.mem_map_of_mem (fun q => q.1) (List.mem_cons_self p rest)))]
    rw [ih
      (by simp only [dictKeys, List.map_cons] at hnodup
          exact (List.nodup_cons.mp hnodup).2)
      (fun q hq => hne q (List.mem_cons_of_mem p hq))
      (fun q hq => htags q (List.mem_cons_of_mem p hq))
      (acc ++ [(p.1, p.2)])
      (fun k hk => by
        simp only [dictKeys, List.map_append, List.map_cons, List.map_nil]
        intro hmem
        rcases List.mem_append.mp hmem with h1 | h2
        · exact hdisj k (List.mem_cons_of_mem p.1 hk) h1
        · simp only [List.mem_singleton] at h2
          exact hpn (h2 ▸ hk))]
    rw [show (p : Nat × List MessageLoggingTagged) = (p.1, p.2) from rfl, List.append_assoc,
      List.singleton_append]

theorem formatsJoin (pk : Nat) :
    ∀ (fmts : List (String × MessageFormat)) (fid : Nat) (oldff ff : List FormatFieldRow),
      (∀ f ∈ oldff, f.message_id < fid) →
      ff = oldff ++ ffRowsSpec fmts fid →
      (fmRowsSpec pk fmts fid).flatMap (fun m =>
        (ff.filter (fun f => f.message_id = m.id)).map
          (fun f => (m.name, f.field_type, f.array_size, f.name))) =
      fmts.flatMap (fun p => p.2.fields.map (fun fd => (p.1, fd))) := by
  intro fmts
  induction fmts with
  | nil => intro fid oldff ff _ _; rfl
  | cons p rest ih =>
    intro fid oldff ff holdff hff
    rw [show (p : String × MessageFormat) = (p.1, p.2) from rfl] at hff ⊢
    rw [ffRowsSpec] at hff
    rw [fmRowsSpec, List.flatMap_cons, List.flatMap_cons]
    have hfilter : ff.filter (fun f => f.message_id = fid) =
        p.2.fields.map (fun f => FormatFieldRow.mk f.1 f.2.1 f.2.2 fid) := by
      rw [hff, List.filter_append, List.filter_append]
      rw [List.filter_eq_nil_iff.mpr (fun f hf => by
        have := holdff f hf
        simp only [decide_eq_true_eq]
        omega)]
      rw [List.filter_eq_self.mpr (fun f hf => by
        obtain ⟨g, _, hg⟩ := List.mem_map.mp hf
        rw [← hg]
        simp)]
      rw [List.filter_eq_nil_iff.mpr (fun f hf => by
        have := (ffRowsSpec_mem rest (fid + 1) f hf).1
        simp only [decide_eq_true_eq]
        omega)]
      simp
    have hhead : (ff.filter (fun f => f.message_id = fid)).map
        (fun f => (p.1, f.field_type, f.array_size, f.name)) =
        p.2.fields.map (fun fd => (p.1, fd)) := by
      rw [hfilter, List.map_map]
      exact List.map_congr_left (fun fd _ => rfl)
    rw [hhead]
    congr 1
    exact ih (fid + 1) (oldff ++ p.2.fields.map (fun f => FormatFieldRow.mk f.1 f.2.1 f.2.2 fid))
      ff
      (fun f hf => by
        rcases List.mem_append.mp hf with h1 | h2
        · have := holdff f h1; omega
        · obtain ⟨g, _, hg⟩ := List.mem_map.mp h2
          have : f.message_id = fid := by rw [← hg]
          omega)
      (by rw [hff, List.append_assoc])

theorem fmtFold_known (k : String) :
    ∀ (flds : List (String × Nat × String)) (acc : List (String × MessageFormat))
      (cur : MessageFormat), dictGet? acc k = some cur →
      (flds.map (fun fd => (k, fd))).foldl
        (fun acc row =>
          match dictGet? acc row.1 with
          | some mf => dictSet acc row.1 (MessageFormat.mk mf.name (mf.fields ++ [row.2]))
          | none => dictSet acc row.1 (MessageFormat.mk row.1 [row.2])) acc
        = dictSet acc k (MessageFormat.mk cur.name (cur.fields ++ flds)) := by
  intro flds
  induction flds with
  | nil =>
    intro acc cur hget
    simp only [List.map_nil, List.foldl_nil, List.append_nil]
    have : MessageFormat.mk cur.name cur.fields = cur := rfl
    rw [this]
    exact (dictSet_get_self acc k cur hget).symm
  | cons fd fds ih =>
    intro acc cur hget
    simp only [List.map_cons, List.foldl_cons, hget]
    rw [ih (dictSet acc k (MessageFormat.mk cur.name (cur.fields ++ [fd])))
      (MessageFormat.mk cur.name (cur.fields ++ [fd]))
      (dictGet?_dictSet_self acc k (MessageFormat.mk cur.name (cur.fields ++ [fd])))]
    rw [dictSet_dictSet_self]
    simp only [List.append_assoc, List.singleton_append]

theorem fmtFold_new (k : String) (flds : List (String × Nat × String))
    (hne : flds ≠ []) :
    ∀ acc : List (String × MessageFormat), k ∉ dictKeys acc →
      (flds.map (fun fd => (k, fd))).foldl
        (fun acc row =>
          match dictGet? acc row.1 with
          | some mf => dictSet acc row.1 (MessageFormat.mk mf.name (mf.fields ++ [row.2]))
          | none => dictSet acc row.1 (MessageFormat.mk row.1 [row.2])) acc
        = acc ++ [(k, MessageFormat.mk k flds)] := by
  cases flds with
  | nil => exact absurd rfl hne
  | cons fd fds =>
    intro acc hnot
    have hgn : dictGet? acc k = none := dictGet?_eq_none acc k hnot
    simp only [List.map_cons, List.foldl_cons, hgn]
    rw [dictSet_of_notMem acc k (MessageFormat.mk k [fd]) hnot]
    have hget1 : dictGet? (acc ++ [(k, MessageFormat.mk k [fd])]) k =
        some (MessageFormat.mk k [fd]) := by
      rw [dictGet?_append_of_notMem acc _ k hnot, dictGet?_cons_self]
    rw [fmtFold_known k fds (acc ++ [(k, MessageFormat.mk k [fd])])
      (MessageFormat.mk k [fd]) hget1]
    rw [dictSet_append_of_notMem acc _ k _ hnot]
    simp [dictSet]

theorem fmtFold_all :
    ∀ (fmts : List (String × MessageFormat)),
      (dictKeys fmts).Nodup → (∀ p ∈ fmts, p.2.fields ≠ []) →
      (∀ p ∈ fmts, p.2.name = p.1) →
      ∀ acc : List (String × MessageFormat),
        (∀ k ∈ dictKeys fmts, k ∉ dictKeys acc) →
      (fmts.flatMap (fun p => p.2.fields.map (fun fd => (p.1, fd)))).foldl
        (fun acc row =>
          match dictGet? acc row.1 with
          | some mf => dictSet acc row.1 (MessageFormat.mk mf.name (mf.fields ++ [row.2]))
          | none => dictSet acc row.1 (MessageFormat.mk row.1 [row.2])) acc
        = acc ++ fmts := by
  intro fmts
  induction fmts with
  | nil => intro _ _ _ acc _; simp
  | cons p rest ih =>
    intro hnodup hne hname acc hdisj
    have hpn : p.1 ∉ dictKeys rest := by
      simp only [dictKeys, List.map_cons] at hnodup
      exact (List.nodup_cons.mp hnodup).1
    rw [List.flatMap_cons, List.foldl_append]
    rw [fmtFold_new p.1 p.2.fields (hne p (List.mem_cons_self p rest)) acc
      (hdisj p.1 (List.mem_map_of_mem (fun q => q.1) (List.mem_cons_self p rest)))]
    have hmk : MessageFormat.mk p.1 p.2.fields = p.2 := by
      rw [← hname p (List.mem_cons_self p rest)]
    rw [hmk]
    rw [ih
      (by simp only [dictKeys, List.map_cons] at hnodup
          exact (List.nodup_cons.mp hnodup).2)
      (fun q hq => hne q (List.mem_cons_of_mem p hq))
      (fun q hq => hname q (List.mem_cons_of_mem p hq))
      (acc ++ [(p.1, p.2)])
      (fun k hk => by
        simp only [dictKeys, List.map_append, List.map_cons, List.map_nil]
        intro hmem
        rcases List.mem_append.mp hmem with h1 | h2
        · exact hdisj k (List.mem_cons_of_mem p.1 hk) h1
        · simp only [List.mem_singleton] at h2
          exact hpn (h2 ▸ hk))]
    rw [show (p : String × MessageFormat) = (p.1, p.2) from rfl, List.append_assoc,
      List.singleton_append]

theorem defFold_known (pk dt : Nat) :
    ∀ (prs : List (String × Val)) (acc : List (Nat × List (String × Val)))
      (cur : List (String × Val)), dictGet? acc dt = some cur →
      (prs.map (fun p => DefaultParamRow.mk dt p.1 p.2 pk)).foldl
        (fun acc r =>
          let inner := match dictGet? acc r.default_type with
            | some d => d
            | none => []
          dictSet acc r.default_type (dictSet inner r.key r.value)) acc
        = dictSet acc dt (prs.foldl (fun i p => dictSet i p.1 p.2) cur) := by
  intro prs
  induction prs with
  | nil =>
    intro acc cur hget
    simp only [List.map_nil, List.foldl_nil]
    exact (dictSet_get_self acc dt cur hget).symm
  | cons p ps ih =>
    intro acc cur hget
    simp only [List.map_cons, List.foldl_cons, hget]
    rw [ih (dictSet acc dt (dictSet cur p.1 p.2)) (dictSet cur p.1 p.2)
      (dictGet?_dictSet_self acc dt (dictSet cur p.1 p.2))]
    rw [dictSet_dictSet_self]

theorem defFold_new (pk dt : Nat) (prs : List (String × Val))
    (hne : prs ≠ []) (hnodup : (dictKeys prs).Nodup) :
    ∀ acc : List (Nat × List (String × Val)), dt ∉ dictKeys acc →
      (prs.map (fun p => DefaultParamRow.mk dt p.1 p.2 pk)).foldl
        (fun acc r =>
          let inner := match dictGet? acc r.default_type with
            | some d => d
            | none => []
          dictSet acc r.default_type (dictSet inner r.key r.value)) acc
        = acc ++ [(dt, prs)] := by
  cases prs with
  | nil => exact absurd rfl hne
  | cons p ps =>
    intro acc hnot
    have hgn : dictGet? acc dt = none := dictGet?_eq_none acc dt hnot
    simp only [List.map_cons, List.foldl_cons, hgn]
    have hsingle : dictSet ([] : List (String × Val)) p.1 p.2 = [(p.1, p.2)] := rfl
    rw [hsingle, show ((p.1, p.2) : String × Val) = p from rfl]
    rw [dictSet_of_notMem acc dt [p] hnot]
    have hget1 : dictGet? (acc ++ [(dt, [p])]) dt = some [p] := by
      rw [dictGet?_append_of_notMem acc _ dt hnot, dictGet?_cons_self]
    rw [defFold_known pk dt ps (acc ++ [(dt, [p])]) [p] hget1]
    have hfold : ps.foldl (fun i p => dictSet i p.1 p.2) [p] = p :: ps := by
      have hpn : p.1 ∉ dictKeys ps := by
        simp only [dictKeys, List.map_cons] at hnodup
        exact (List.nodup_cons.mp hnodup).1
      rw [foldl_dictSet_append ps
        (by simp only [dictKeys, List.map_cons] at hnodup
            exact (List.nodup_cons.mp hnodup).2)
        [p]
        (fun k hk => by
          simp only [dictKeys, List.map_cons, List.map_nil]
          intro hmem
          simp only [List.mem_singleton] at hmem
          exact hpn (hmem ▸ hk))]
      rfl
    rw [hfold, dictSet_append_of_notMem acc _ dt _ hnot]
    simp [dictSet]

theorem defFold_all (pk : Nat) :
    ∀ (dps : List (Nat × List (String × Val))),
      (dictKeys dps).Nodup → (∀ p ∈ dps, p.2 ≠ []) →
      (∀ p ∈ dps, (dictKeys p.2).Nodup) →
      ∀ acc : List (Nat × List (String × Val)),
        (∀ k ∈ dictKeys dps, k ∉ dictKeys acc) →
      (dps.flatMap (fun q => q.2.map (fun p => DefaultParamRow.mk q.1 p.1 p.2 pk))).foldl
        (fun acc r =>
          let inner := match dictGet? acc r.default_type with
            | some d => d
            | none => []
          dictSet acc r.default_type (dictSet inner r.key r.value)) acc
        = acc ++ dps := by
  intro dps
  induction dps with
  | nil => intro _ _ _ acc _; simp
  | cons p rest ih =>
    intro hnodup hne hinner acc hdisj
    have hpn : p.1 ∉ dictKeys rest := by
      simp only [dictKeys, List.map_cons] at hnodup
      exact (List.nodup_cons.mp hnodup).1
    rw [List.flatMap_cons, List.foldl_append]
    rw [defFold_new pk p.1 p.2 (hne p (List.mem_cons_self p rest))
      (hinner p (List.mem_cons_self p rest)) acc
      (hdisj p.1 (List.mem_map_of_mem (fun q => q.1) (List.mem_cons_self p rest)))]
    rw [ih
      (by simp only [dictKeys, List.map_cons] at hnodup
          exact (List.nodup_cons.mp hnodup).2)
      (fun q hq => hne q (List.mem_cons_of_mem p hq))
      (fun q hq => hinner q (List.mem_cons_of_mem p hq))
      (acc ++ [(p.1, p.2)])
      (fun k hk => by
        simp only [dictKeys, List.map_append, List.map_cons, List.map_nil]
        intro hmem
        rcases List.mem_append.mp hmem with h1 | h2
        · exact hdisj k (List.mem_cons_of_mem p.1 hk) h1
        · simp only [List.mem_singleton] at h2
          exact hpn (h2 ▸ hk))]
    rw [show (p : Nat × List (String × Val)) = (p.1, p.2) from rfl, List.append_assoc,
      List.singleton_append]

theorem offsets_decode (pk : Nat) (offs : List Nat) :
    (sortByLe offsetLe (offs.enum.map (fun p => OffsetRow.mk p.1 p.2 pk))).map
      (fun r => r.offset) = offs := by
  rw [sortByLe_eq_self, List.map_map]
  · exact List.enum_map_snd offs
  · rw [List.pairwise_map]
    refine (pairwise_enum_lt offs).imp ?_
    intro a b hab
    simp only [offsetLe, decide_eq_true_eq]
    omega

theorem forall₂_map_map {α β γ : Type} (R : β → γ → Prop) (f : α → β) (g : α → γ) :
    ∀ l : List α, (∀ a ∈ l, R (f a) (g a)) → List.Forall₂ R (l.map f) (l.map g) := by
  intro l
  induction l with
  | nil => intro _; exact List.Forall₂.nil
  | cons a as ih =>
    intro hall
    exact List.Forall₂.cons (hall a (List.mem_cons_self a as))
      (ih (fun b hb => hall b (List.mem_cons_of_mem a hb)))

theorem dictGet?_dictSet_ne {α : Type} [DecidableEq α] {β : Type} :
    ∀ (l : List (α × β)) (t k : α) (v : β), k ≠ t →
      dictGet? (dictSet l t v) k = dictGet? l k := by
  intro l t k v hne
  induction l with
  | nil =>
    show dictGet? [(t, v)] k = dictGet? ([] : List (α × β)) k
    rw [dictGet?_cons_ne _ _ _ _ (fun he => hne he.symm)]
  | cons p rest ih =>
    rw [show (p : α × β) = (p.1, p.2) from rfl, dictSet]
    by_cases he : p.1 = t
    · rw [if_pos he, dictGet?_cons_ne _ _ _ _ (fun h2 => hne h2.symm),
        dictGet?_cons_ne _ _ _ _ (fun h2 : p.1 = k => hne (he ▸ h2 : t = k).symm)]
    · rw [if_neg he]
      by_cases hk : p.1 = k
      · rw [hk, dictGet?_cons_self, dictGet?_cons_self]
      · rw [dictGet?_cons_ne _ _ _ _ hk, dictGet?_cons_ne _ _ _ _ hk, ih]

theorem imFold_general (pk : Nat) (types : List (String × String)) (s : Store) :
    ∀ (entries : List (String × List (List Val))) (mid lid : Nat)
      (oldl : List InfoListRow) (olde : List InfoElementRow),
      (∀ r ∈ oldl, r.message_id < mid) →
      (∀ r ∈ olde, r.list_id < lid) →
      s.info_lists = oldl ++ imListRowsSpec entries mid lid →
      s.info_elements = olde ++ imElemRowsSpec entries lid →
      ∀ acc : List (String × List (List Val)),
        (imRowsSpec pk types entries mid).foldl
          (fun acc r => dictSet acc r.key (infoMultipleLists s r.id)) acc
          = entries.foldl (fun a p => dictSet a p.1 p.2) acc := by
  intro entries
  induction entries with
  | nil => intro mid lid oldl olde _ _ _ _ acc; rfl
  | cons p rest ih =>
    intro mid lid oldl olde holdl holde hl he acc
    rw [show (p : String × List (List Val)) = (p.1, p.2) from rfl] at hl he ⊢
    rw [imListRowsSpec] at hl
    rw [imElemRowsSpec] at he
    rw [imRowsSpec, List.foldl_cons, List.foldl_cons]
    have hentry : infoMultipleLists s mid = p.2 := by
      refine infoMultipleLists_entry s mid lid p.2 oldl
        (imListRowsSpec rest (mid + 1) (lid + p.2.length)) olde
        (imElemRowsSpec rest (lid + p.2.length)) ?_ ?_ ?_ holde ?_ ?_
      · intro r hr
        have := holdl r hr
        omega
      · intro r hr
        have := (imListRowsSpec_mem rest (mid + 1) (lid + p.2.length) r hr).1
        omega
      · rw [hl, List.append_assoc]
      · intro r hr
        exact imElemRowsSpec_mem rest (lid + p.2.length) r hr
      · rw [he, List.append_assoc]
    show List.foldl _ (dictSet acc p.1 (infoMultipleLists s mid)) _ = _
    rw [hentry]
    exact ih (mid + 1) (lid + p.2.length) (oldl ++ ilRowsSpec mid p.2 0 lid)
      (olde ++ ieRowsSpec p.2 lid)
      (fun r hr => by
        rcases List.mem_append.mp hr with h1 | h2
        · have := holdl r h1; omega
        · have := (ilRowsSpec_mem mid p.2 0 lid r h2).1; omega)
      (fun r hr => by
        rcases List.mem_append.mp hr with h1 | h2
        · have := holde r h1; omega
        · exact (ieRowsSpec_mem p.2 lid r h2).2)
      (by rw [hl, List.append_assoc])
      (by rw [he, List.append_assoc])
      (dictSet acc p.1 p.2)

theorem imRows_typesFold_general (pk : Nat) (types : List (String × String)) :
    ∀ (entries : List (String × List (List Val))) (mid : Nat)
      (acc : List (String × String)),
      (imRowsSpec pk types entries mid).foldl
        (fun acc r => dictSet acc r.key r.typename) acc =
      entries.foldl (fun a p => dictSet a p.1 ((dictGet? types p.1).getD "")) acc := by
  intro entries
  induction entries with
  | nil => intro mid acc; rfl
  | cons p rest ih =>
    intro mid acc
    rw [show (p : String × List (List Val)) = (p.1, p.2) from rfl, imRowsSpec,
      List.foldl_cons, List.foldl_cons]
    exact ih (mid + 1) (dictSet acc p.1 ((dictGet? types p.1).getD ""))

theorem tagFold_update (pk : Nat) :
    ∀ (tg : List (Nat × List MessageLoggingTagged)),
      (∀ p ∈ tg, ∀ m ∈ p.2, m.tag = p.1) →
      ∀ acc : List (Nat × List MessageLoggingTagged),
        (∀ p ∈ tg, dictGet? acc p.1 = some p.2) →
        (dictKeys tg).Nodup →
      (tg.flatMap (fun p => p.2.map (fun m =>
          LoggingTaggedRow.mk m.log_level m.timestamp p.1 m.message pk))).foldl
        (fun acc r =>
          let old := match dictGet? acc r.tag with
            | some msgs => msgs
            | none => []
          dictSet acc r.tag
            (old ++ [MessageLoggingTagged.mk r.log_level r.tag r.timestamp r.message])) acc
        = tg.foldl (fun a p => dictSet a p.1 (p.2 ++ p.2)) acc := by
  intro tg
  induction tg with
  | nil => intro _ acc _ _; rfl
  | cons p rest ih =>
    intro htags acc hget hnodup
    have hpn : p.1 ∉ dictKeys rest := by
      simp only [dictKeys, List.map_cons] at hnodup
      exact (List.nodup_cons.mp hnodup).1
    rw [List.flatMap_cons, List.foldl_append, List.foldl_cons]
    rw [tagFold_known pk p.1 p.2 acc p.2 (hget p (List.mem_cons_self p rest))
      (htags p (List.mem_cons_self p rest))]
    exact ih (fun q hq => htags q (List.mem_cons_of_mem p hq))
      (dictSet acc p.1 (p.2 ++ p.2))
      (fun q hq => by
        have hkne : q.1 ≠ p.1 := by
          intro he
          exact hpn (he ▸ List.mem_map_of_mem (fun r => r.1) hq)
        rw [dictGet?_dictSet_ne acc p.1 q.1 (p.2 ++ p.2) hkne]
        exact hget q (List.mem_cons_of_mem p hq))
      (by simp only [dictKeys, List.map_cons] at hnodup
          exact (List.nodup_cons.mp hnodup).2)

theorem foldl_dictSet_inplace {α : Type} [DecidableEq α] {γ : Type}
    (f : List γ → List γ) :
    ∀ (todo done : List (α × List γ)),
      (dictKeys todo).Nodup → (∀ k ∈ dictKeys todo, k ∉ dictKeys done) →
      todo.foldl (fun a p => dictSet a p.1 (f p.2)) (done ++ todo) =
        done ++ todo.map (fun p => (p.1, f p.2)) := by
  intro todo
  induction todo with
  | nil => intro done _ _; simp
  | cons p rest ih =>
    intro done hnodup hdisj
    have hp : p.1 ∉ dictKeys done :=
      hdisj p.1 (List.mem_map_of_mem (fun q => q.1) (List.mem_cons_self p rest))
    have hpn : p.1 ∉ dictKeys rest := by
      simp only [dictKeys, List.map_cons] at hnodup
      exact (List.nodup_cons.mp hnodup).1
    have hstep : dictSet (done ++ p :: rest) p.1 (f p.2) =
        (done ++ [(p.1, f p.2)]) ++ rest := by
      rw [dictSet_append_of_notMem _ _ _ _ hp,
        show (p :: rest : List (α × List γ)) = (p.1, p.2) :: rest from rfl,
        dictSet, if_pos rfl]
      simp
    rw [List.foldl_cons, hstep]
    rw [ih (done ++ [(p.1, f p.2)])
      (by simp only [dictKeys, List.map_cons] at hnodup
          exact (List.nodup_cons.mp hnodup).2)
      (fun k hk => by
        simp only [dictKeys, List.map_append, List.map_cons, List.map_nil]
        intro hmem
        rcases List.mem_append.mp hmem with h1 | h2
        · exact hdisj k (List.mem_cons_of_mem p.1 hk) h1
        · simp only [List.mem_singleton] at h2
          exact hpn (h2 ▸ hk))]
    simp

theorem loadDatasets_eq' (s : Store) (lazy : Bool) (pkv : Option Nat) :
    ∀ (pairs : List (String × Nat)) (ds : List DataSet) (h : Handle), h.pk = pkv →
      List.Forall₂ (fun p d => fetchSpec s pkv p.1 p.2 lazy = Except.ok d) pairs ds →
      loadDatasets s lazy h pairs =
        Except.ok { h with data_list := h.data_list ++ ds } := by
  intro pairs ds h hpkv hf
  exact loadDatasets_eq s lazy pairs ds h (by rw [hpkv]; exact hf)

/-- One `load` against a store just produced by a successful save: every
section reduces to the saved log's own rows, merged into the loading
handle with the source's append and dict-assign semantics. -/
theorem load_saved_eq (h : Handle) (s : Store) (ajson : Bool) (h0 : Handle) (lz : Bool)
    (hwf : HandleWF h) (hswf : StoreWF s) (hsorted : dsSorted h.data_list)
    (hpk0 : h0.pk = some s.next_ulog_id) :
    load h0 (savedStore h s ajson) lz = Except.ok
      { h0 with
        file_version := h.file_version
        start_timestamp := h.start_timestamp
        last_timestamp := h.last_timestamp
        compat_flags := h.compat_flags
        incompat_flags := h.incompat_flags
        sync_seq_cnt := h.sync_seq_cnt
        has_sync := h.has_sync
        sha256sum := h.sha256sum
        appended_offsets := h0.appended_offsets ++ h.appended_offsets
        data_list := h.data_list.map (fun d =>
          if lz then DataSet.mk d.name d.multi_id d.msg_id d.timestamp_idx [] [] else d)
        dropouts := h0.dropouts ++ h.dropouts
        logged_messages := h0.logged_messages ++ h.logged_messages
        logged_messages_tagged :=
          (h.logged_messages_tagged.flatMap (fun p => p.2.map (fun m =>
            LoggingTaggedRow.mk m.log_level m.timestamp p.1 m.message s.next_ulog_id))).foldl
            (fun acc r =>
              let old := match dictGet? acc r.tag with
                | some msgs => msgs
                | none => []
              dictSet acc r.tag
                (old ++ [MessageLoggingTagged.mk r.log_level r.tag r.timestamp r.message]))
            h0.logged_messages_tagged
        message_formats :=
          (h.message_formats.flatMap (fun p => p.2.fields.map (fun fd => (p.1, fd)))).foldl
            (fun acc row =>
              match dictGet? acc row.1 with
              | some mf => dictSet acc row.1 (MessageFormat.mk mf.name (mf.fields ++ [row.2]))
              | none => dictSet acc row.1 (MessageFormat.mk row.1 [row.2]))
            h0.message_formats
        msg_info_dict :=
          h.msg_info_dict.foldl (fun a p => dictSet a p.1 p.2) h0.msg_info_dict
        msg_info_dict_types :=
          h.msg_info_dict.foldl (fun a p =>
            dictSet a p.1 ((dictGet? h.msg_info_dict_types p.1).getD ""))
            h0.msg_info_dict_types
        msg_info_multiple_dict :=
          h.msg_info_multiple_dict.foldl (fun a p => dictSet a p.1 p.2)
            h0.msg_info_multiple_dict
        msg_info_multiple_dict_types :=
          h.msg_info_multiple_dict.foldl (fun a p =>
            dictSet a p.1 ((dictGet? h.msg_info_multiple_dict_types p.1).getD ""))
            h0.msg_info_multiple_dict_types
        initial_parameters :=
          h.initial_parameters.foldl (fun a p => dictSet a p.1 p.2) h0.initial_parameters
        default_parameters :=
          (h.default_parameters.flatMap (fun q => q.2.map (fun p =>
            DefaultParamRow.mk q.1 p.1 p.2 s.next_ulog_id))).foldl
            (fun acc r =>
              let inner := match dictGet? acc r.default_type with
                | some d => d
                | none => []
              dictSet acc r.default_type (dictSet inner r.key r.value))
            h0.default_parameters
        changed_parameters := h0.changed_parameters ++ h.changed_parameters
        lazy_loaded := lz } := by
  have hexists : exists_in_db (savedStore h s ajson) h0.pk = true := by
    rw [exists_in_db, show (savedStore h s ajson).ulog = s.ulog ++
      [ULogRow.mk s.next_ulog_id h.file_version h.start_timestamp h.last_timestamp
        (String.mk (h.compat_flags.map Char.ofNat))
        (String.mk (h.incompat_flags.map Char.ofNat))
        h.sync_seq_cnt h.has_sync h.sha256sum] from rfl]
    rw [countP_append_skip _ _ _ (fun r hr => by
      have := hswf.ulog_lt r hr
      rw [hpk0]
      simp only [decide_eq_true_eq, Option.some.injEq]
      omega)]
    rw [hpk0]
    simp
  have hfind : (savedStore h s ajson).ulog.find? (fun r => some r.id = h0.pk) =
      some (ULogRow.mk s.next_ulog_id h.file_version h.start_timestamp h.last_timestamp
        (String.mk (h.compat_flags.map Char.ofNat))
        (String.mk (h.incompat_flags.map Char.ofNat))
        h.sync_seq_cnt h.has_sync h.sha256sum) := by
    rw [show (savedStore h s ajson).ulog = s.ulog ++
      [ULogRow.mk s.next_ulog_id h.file_version h.start_timestamp h.last_timestamp
        (String.mk (h.compat_flags.map Char.ofNat))
        (String.mk (h.incompat_flags.map Char.ofNat))
        h.sync_seq_cnt h.has_sync h.sha256sum] from rfl]
    rw [find?_append_skip _ _ _ (fun r hr => by
      have := hswf.ulog_lt r hr
      rw [hpk0]
      simp only [decide_eq_true_eq, Option.some.injEq]
      omega)]
    rw [List.find?_cons_of_pos]
    rw [hpk0]
    simp
  have hofffilter : (savedStore h s ajson).offsets.filter
      (fun r => some r.ulog_id = h0.pk) =
      h.appended_offsets.enum.map (fun p => OffsetRow.mk p.1 p.2 s.next_ulog_id) := by
    refine filter_append_eq _ _ _ ?_ ?_
    · intro r hr
      have := hswf.offsets_lt r hr
      rw [hpk0]
      simp only [decide_eq_true_eq, Option.some.injEq]
      omega
    · intro r hr
      obtain ⟨p, _, hp⟩ := List.mem_map.mp hr
      rw [hpk0, ← hp]
      simp
  have hdsfilter : (savedStore h s ajson).datasets.filter
      (fun r => some r.ulog_id = h0.pk) =
      dsRowsSpec s.next_ulog_id h.data_list s.next_dataset_id := by
    refine filter_append_eq _ _ _ ?_ ?_
    · intro r hr
      have := hswf.datasets_lt r hr
      rw [hpk0]
      simp only [decide_eq_true_eq, Option.some.injEq]
      omega
    · intro r hr
      have := (dsRowsSpec_mem s.next_ulog_id h.data_list s.next_dataset_id r hr).1
      rw [hpk0]
      simp [this]
  have hpair : (dsRowsSpec s.next_ulog_id h.data_list s.next_dataset_id).Pairwise
      (fun a b => datasetRowLe a b = true) := by
    have h1 : ((dsRowsSpec s.next_ulog_id h.data_list s.next_dataset_id).map
        (fun r => (r.dataset_name, r.multi_id))).Pairwise
        (fun a b => strLtb a.1 b.1 = true ∨ (a.1 = b.1 ∧ a.2 ≤ b.2)) := by
      rw [dsRowsSpec_keys, List.pairwise_map]
      exact hsorted
    have h2 := List.pairwise_map.mp h1
    refine h2.imp ?_
    intro a b hab
    simp only [datasetRowLe, Bool.or_eq_true, Bool.and_eq_true, decide_eq_true_eq]
    exact hab
  have hsorteq : sortByLe datasetRowLe
      (dsRowsSpec s.next_ulog_id h.data_list s.next_dataset_id) =
      dsRowsSpec s.next_ulog_id h.data_list s.next_dataset_id :=
    sortByLe_eq_self hpair
  have hforall : List.Forall₂ (fun (p : String × Nat) (d : DataSet) =>
      fetchSpec (savedStore h s ajson) (some s.next_ulog_id) p.1 p.2 lz = Except.ok d)
      (h.data_list.map (fun d => (d.name, d.multi_id)))
      (h.data_list.map (fun d =>
        if lz then DataSet.mk d.name d.multi_id d.msg_id d.timestamp_idx [] [] else d)) := by
    refine forall₂_map_map _ _ _ h.data_list (fun d hd => ?_)
    exact fetchSpec_saved s.next_ulog_id ajson lz (savedStore h s ajson) h.data_list
      s.next_dataset_id s.datasets s.fields hwf.ds_wf hwf.ds_keys_nodup
      (fun r hr d' _ => by
        have := hswf.datasets_lt r hr
        rintro ⟨_, _, he⟩
        omega)
      hswf.fields_lt rfl rfl d hd
  have hdropfilter : (savedStore h s ajson).dropouts.filter
      (fun r => some r.ulog_id = h0.pk) =
      h.dropouts.map (fun d => DropoutRow.mk d.timestamp d.duration s.next_ulog_id) := by
    refine filter_append_eq _ _ _ ?_ ?_
    · intro r hr
      have := hswf.dropouts_lt r hr
      rw [hpk0]
      simp only [decide_eq_true_eq, Option.some.injEq]
      omega
    · intro r hr
      obtain ⟨p, _, hp⟩ := List.mem_map.mp hr
      rw [hpk0, ← hp]
      simp
  have hlogfilter : (savedStore h s ajson).loggings.filter
      (fun r => some r.ulog_id = h0.pk) =
      h.logged_messages.map
        (fun m => LoggingRow.mk m.log_level m.timestamp m.message s.next_ulog_id) := by
    refine filter_append_eq _ _ _ ?_ ?_
    · intro r hr
      have := hswf.loggings_lt r hr
      rw [hpk0]
      simp only [decide_eq_true_eq, Option.some.injEq]
      omega
    · intro r hr
      obtain ⟨p, _, hp⟩ := List.mem_map.mp hr
      rw [hpk0, ← hp]
      simp
  have htagfilter : (savedStore h s ajson).loggings_tagged.filter
      (fun r => some r.ulog_id = h0.pk) =
      h.logged_messages_tagged.flatMap (fun p => p.2.map (fun m =>
        LoggingTaggedRow.mk m.log_level m.timestamp p.1 m.message s.next_ulog_id)) := by
    refine filter_append_eq _ _ _ ?_ ?_
    · intro r hr
      have := hswf.loggings_tagged_lt r hr
      rw [hpk0]
      simp only [decide_eq_true_eq, Option.some.injEq]
      omega
    · intro r hr
      obtain ⟨p, _, hp⟩ := List.mem_flatMap.mp hr
      obtain ⟨m, _, hm⟩ := List.mem_map.mp hp
      rw [hpk0, ← hm]
      simp
  have hfmfilter : (savedStore h s ajson).formats.filter
      (fun r => some r.ulog_id = h0.pk) =
      fmRowsSpec s.next_ulog_id h.message_formats s.next_format_id := by
    refine filter_append_eq _ _ _ ?_ ?_
    · intro r hr
      have := hswf.formats_lt r hr
      rw [hpk0]
      simp only [decide_eq_true_eq, Option.some.injEq]
      omega
    · intro r hr
      have := (fmRowsSpec_mem s.next_ulog_id h.message_formats s.next_format_id r hr).1
      rw [hpk0]
      simp [this]
  have hjoin : (fmRowsSpec s.next_ulog_id h.message_formats s.next_format_id).flatMap
      (fun m => ((savedStore h s ajson).format_fields.filter
        (fun f => f.message_id = m.id)).map
        (fun f => (m.name, f.field_type, f.array_size, f.name))) =
      h.message_formats.flatMap (fun p => p.2.fields.map (fun fd => (p.1, fd))) :=
    formatsJoin s.next_ulog_id h.message_formats s.next_format_id s.format_fields
      (savedStore h s ajson).format_fields hswf.format_fields_lt rfl
  have hinfofilter : (savedStore h s ajson).infos.filter
      (fun r => some r.ulog_id = h0.pk) =
      h.msg_info_dict.map (fun p =>
        InfoRow.mk p.1 p.2 ((dictGet? h.msg_info_dict_types p.1).getD "") s.next_ulog_id) := by
    refine filter_append_eq _ _ _ ?_ ?_
    · intro r hr
      have := hswf.infos_lt r hr
      rw [hpk0]
      simp only [decide_eq_true_eq, Option.some.injEq]
      omega
    · intro r hr
      obtain ⟨p, _, hp⟩ := List.mem_map.mp hr
      rw [hpk0, ← hp]
      simp
  have hmultifilter : (savedStore h s ajson).info_multiples.filter
      (fun r => some r.ulog_id = h0.pk) =
      imRowsSpec s.next_ulog_id h.msg_info_multiple_dict_types h.msg_info_multiple_dict
        s.next_info_multiple_id := by
    refine filter_append_eq _ _ _ ?_ ?_
    · intro r hr
      have := hswf.multis_lt r hr
      rw [hpk0]
      simp only [decide_eq_true_eq, Option.some.injEq]
      omega
    · intro r hr
      have := (imRowsSpec_mem s.next_ulog_id h.msg_info_multiple_dict_types
        h.msg_info_multiple_dict s.next_info_multiple_id r hr).1
      rw [hpk0]
      simp [this]
  have hinitfilter : (savedStore h s ajson).initial_params.filter
      (fun r => some r.ulog_id = h0.pk) =
      h.initial_parameters.map (fun p => InitialParamRow.mk p.1 p.2 s.next_ulog_id) := by
    refine filter_append_eq _ _ _ ?_ ?_
    · intro r hr
      have := hswf.initial_lt r hr
      rw [hpk0]
      simp only [decide_eq_true_eq, Option.some.injEq]
      omega
    · intro r hr
      obtain ⟨p, _, hp⟩ := List.mem_map.mp hr
      rw [hpk0, ← hp]
      simp
  have hdeffilter : (savedStore h s ajson).default_params.filter
      (fun r => some r.ulog_id = h0.pk) =
      h.default_parameters.flatMap (fun q => q.2.map (fun p =>
        DefaultParamRow.mk q.1 p.1 p.2 s.next_ulog_id)) := by
    refine filter_append_eq _ _ _ ?_ ?_
    · intro r hr
      have := hswf.default_lt r hr
      rw [hpk0]
      simp only [decide_eq_true_eq, Option.some.injEq]
      omega
    · intro r hr
      obtain ⟨p, _, hp⟩ := List.mem_flatMap.mp hr
      obtain ⟨m, _, hm⟩ := List.mem_map.mp hp
      rw [hpk0, ← hm]
      simp
  have hchgfilter : (savedStore h s ajson).changed_params.filter
      (fun r => some r.ulog_id = h0.pk) =
      h.changed_parameters.map
        (fun c => ChangedParamRow.mk c.1 c.2.1 c.2.2 s.next_ulog_id) := by
    refine filter_append_eq _ _ _ ?_ ?_
    · intro r hr
      have := hswf.changed_lt r hr
      rw [hpk0]
      simp only [decide_eq_true_eq, Option.some.injEq]
      omega
    · intro r hr
      obtain ⟨p, _, hp⟩ := List.mem_map.mp hr
      rw [hpk0, ← hp]
      simp
  have hmultifold := imFold_general s.next_ulog_id h.msg_info_multiple_dict_types
    (savedStore h s ajson) h.msg_info_multiple_dict s.next_info_multiple_id
    s.next_info_list_id s.info_lists s.info_elements
    hswf.lists_mid_lt hswf.elements_lt rfl rfl
  have hmultitypesfold := imRows_typesFold_general s.next_ulog_id
    h.msg_info_multiple_dict_types h.msg_info_multiple_dict s.next_info_multiple_id
  simp only [load, hexists, Bool.not_true, Bool.false_eq_true, if_false, hfind,
    hofffilter, hdsfilter, hsorteq, dsRowsSpec_keys]
  rw [loadDatasets_eq' (savedStore h s ajson) lz (some s.next_ulog_id) _
    (h.data_list.map (fun d =>
      if lz then DataSet.mk d.name d.multi_id d.msg_id d.timestamp_idx [] [] else d))]
  simp only [htagfilter, hfmfilter, hjoin, hinfofilter, hmultifilter, hmultifold,
    hmultitypesfold, hinitfilter, hdeffilter, hchgfilter, hdropfilter, hlogfilter,
    flags_roundtrip h.compat_flags hwf.flags_compat,
    flags_roundtrip h.incompat_flags hwf.flags_incompat,
    offsets_decode s.next_ulog_id h.appended_offsets,
    List.foldl_map, List.map_map, List.nil_append]
  refine congrArg Except.ok ?_
  have hdrops : h.dropouts.map ((fun r => MessageDropout.mk r.timestamp r.duration) ∘
      (fun d => DropoutRow.mk d.timestamp d.duration s.next_ulog_id)) = h.dropouts := by
    calc h.dropouts.map _ = h.dropouts.map id := List.map_congr_left (fun d _ => rfl)
      _ = h.dropouts := List.map_id _
  have hlogs : h.logged_messages.map
      ((fun r => MessageLogging.mk r.log_level r.timestamp r.message) ∘
        (fun m => LoggingRow.mk m.log_level m.timestamp m.message s.next_ulog_id)) =
      h.logged_messages := by
    calc h.logged_messages.map _ = h.logged_messages.map id :=
          List.map_congr_left (fun m _ => rfl)
      _ = h.logged_messages := List.map_id _
  have hchgs : h.changed_parameters.map ((fun r => (r.timestamp, r.key, r.value)) ∘
      (fun c => ChangedParamRow.mk c.1 c.2.1 c.2.2 s.next_ulog_id)) =
      h.changed_parameters := by
    calc h.changed_parameters.map _ = h.changed_parameters.map id :=
          List.map_congr_left (fun c _ => rfl)
      _ = h.changed_parameters := List.map_id _
  simp only [hdrops, hlogs, hchgs]
  · exact hpk0
  · exact hforall

theorem foldl_dictSet_keyfn {α : Type} [DecidableEq α] {β γ : Type} (g : α → γ) :
    ∀ (l : List (α × β)), (dictKeys l).Nodup →
      ∀ acc : List (α × γ), (∀ k ∈ dictKeys l, k ∉ dictKeys acc) →
        l.foldl (fun a p => dictSet a p.1 (g p.1)) acc =
          acc ++ l.map (fun p => (p.1, g p.1)) := by
  intro l
  induction l with
  | nil => intro _ acc _; simp
  | cons p rest ih =>
    intro hnodup acc hdisj
    have hp : p.1 ∉ dictKeys acc :=
      hdisj p.1 (List.mem_map_of_mem (fun q => q.1) (List.mem_cons_self p rest))
    have hpn : p.1 ∉ dictKeys rest := by
      simp only [dictKeys, List.map_cons] at hnodup
      exact (List.nodup_cons.mp hnodup).1
    rw [List.foldl_cons, dictSet_of_notMem acc p.1 (g p.1) hp]
    rw [ih
      (by simp only [dictKeys, List.map_cons] at hnodup
          exact (List.nodup_cons.mp hnodup).2)
      (acc ++ [(p.1, g p.1)])
      (fun k hk => by
        simp only [dictKeys, List.map_append, List.map_cons, List.map_nil]
        intro hmem
        rcases List.mem_append.mp hmem with h1 | h2
        · exact hdisj k (List.mem_cons_of_mem p.1 hk) h1
        · simp only [List.mem_singleton] at h2
          exact hpn (h2 ▸ hk))]
    simp

theorem types_rebuild {β : Type} (dict : List (String × β)) (types : List (String × String))
    (hkeys : dictKeys types = dictKeys dict) (hnodup : (dictKeys dict).Nodup) :
    dict.map (fun p => (p.1, (dictGet? types p.1).getD "")) = types := by
  have h1 : dict.map (fun p => (p.1, (dictGet? types p.1).getD "")) =
      (dictKeys dict).map (fun k => (k, (dictGet? types k).getD "")) := by
    rw [dictKeys, List.map_map]
    rfl
  rw [h1, ← hkeys, dict_eta types (by rw [hkeys]; exact hnodup) ""]

theorem dictGet?_of_mem_nodup {α : Type} [DecidableEq α] {β : Type} :
    ∀ (l : List (α × β)) (p : α × β), p ∈ l → (dictKeys l).Nodup →
      dictGet? l p.1 = some p.2 := by
  intro l
  induction l with
  | nil => intro p hp _; simp at hp
  | cons q rest ih =>
    intro p hp hnodup
    have hqn : q.1 ∉ dictKeys rest := by
      simp only [dictKeys, List.map_cons] at hnodup
      exact (List.nodup_cons.mp hnodup).1
    rcases List.mem_cons.mp hp with h1 | h2
    · subst h1
      rw [show (p : α × β) = (p.1, p.2) from rfl, dictGet?_cons_self]
    · have hne : q.1 ≠ p.1 := by
        intro he
        exact hqn (he ▸ List.mem_map_of_mem (fun r => r.1) h2)
      rw [show (q : α × β) = (q.1, q.2) from rfl, dictGet?_cons_ne _ _ _ _ hne]
      exact ih p h2
        (by simp only [dictKeys, List.map_cons] at hnodup
            exact (List.nodup_cons.mp hnodup).2)

theorem find?_of_countP_one {α : Type} (p : α → Bool) :
    ∀ (l : List α) (a : α), l.countP p = 1 → a ∈ l → p a = true →
      l.find? p = some a := by
  intro l
  induction l with
  | nil => intro a _ ha _; simp at ha
  | cons b rest ih =>
    intro a hcount ha hpa
    by_cases hpb : p b = true
    · rw [List.find?_cons_of_pos _ hpb]
      rw [List.countP_cons, if_pos hpb] at hcount
      have hrest : rest.countP p = 0 := by omega
      rcases List.mem_cons.mp ha with h1 | h2
      · rw [h1]
      · exact absurd hpa (by
          have := List.countP_eq_zero.mp hrest a h2
          simp_all)
    · rw [List.find?_cons_of_neg _ hpb]
      rw [List.countP_cons, if_neg hpb] at hcount
      rcases List.mem_cons.mp ha with h1 | h2
      · exact absurd (h1 ▸ hpa) hpb
      · exact ih a (by omega) h2 hpa

/-- The handle a fresh construction-by-primary-key yields after a save:
every component of the saved log, with the datasets in `(name, multi)`
order and, when lazily loaded, stripped to their row metadata. -/
def loadedHandle (h : Handle) (pk : Nat) (lz : Bool) : Handle where
  pk := some pk
  sha256sum := h.sha256sum
  file_version := h.file_version
  start_timestamp := h.start_timestamp
  last_timestamp := h.last_timestamp
  compat_flags := h.compat_flags
  incompat_flags := h.incompat_flags
  sync_seq_cnt := h.sync_seq_cnt
  has_sync := h.has_sync
  appended_offsets := h.appended_offsets
  data_list := h.data_list.map (fun d =>
    if lz then DataSet.mk d.name d.multi_id d.msg_id d.timestamp_idx [] [] else d)
  dropouts := h.dropouts
  logged_messages := h.logged_messages
  logged_messages_tagged := h.logged_messages_tagged
  message_formats := h.message_formats
  msg_info_dict := h.msg_info_dict
  msg_info_dict_types := h.msg_info_dict_types
  msg_info_multiple_dict := h.msg_info_multiple_dict
  msg_info_multiple_dict_types := h.msg_info_multiple_dict_types
  initial_parameters := h.initial_parameters
  default_parameters := h.default_parameters
  changed_parameters := h.changed_parameters
  lazy_loaded := lz

/-- A fresh handle constructed on the saved primary key loads back the
saved log exactly (datasets sorted by key; metadata only when lazy). -/
theorem load_of_saved (h : Handle) (s : Store) (ajson : Bool) (lz : Bool)
    (hwf : HandleWF h) (hswf : StoreWF s) (hsorted : dsSorted h.data_list) :
    loadFresh (savedStore h s ajson) s.next_ulog_id lz =
      Except.ok (loadedHandle h s.next_ulog_id lz) := by
  rw [loadFresh, load_saved_eq h s ajson (emptyHandle (some s.next_ulog_id) lz) lz
    hwf hswf hsorted rfl]
  refine congrArg Except.ok ?_
  have htagged :
      (h.logged_messages_tagged.flatMap (fun p => p.2.map (fun m =>
        LoggingTaggedRow.mk m.log_level m.timestamp p.1 m.message s.next_ulog_id))).foldl
        (fun acc r =>
          let old := match dictGet? acc r.tag with
            | some msgs => msgs
            | none => []
          dictSet acc r.tag
            (old ++ [MessageLoggingTagged.mk r.log_level r.tag r.timestamp r.message]))
        ([] : List (Nat × List MessageLoggingTagged)) = h.logged_messages_tagged := by
    rw [tagFold_all s.next_ulog_id h.logged_messages_tagged hwf.tagged_nodup
      hwf.tagged_nonempty hwf.tagged_tags [] (fun k _ => by simp [dictKeys])]
    simp
  have hformats :
      (h.message_formats.flatMap (fun p => p.2.fields.map (fun fd => (p.1, fd)))).foldl
        (fun acc row =>
          match dictGet? acc row.1 with
          | some mf => dictSet acc row.1 (MessageFormat.mk mf.name (mf.fields ++ [row.2]))
          | none => dictSet acc row.1 (MessageFormat.mk row.1 [row.2]))
        ([] : List (String × MessageFormat)) = h.message_formats := by
    rw [fmtFold_all h.message_formats hwf.formats_nodup hwf.formats_nonempty
      hwf.formats_name [] (fun k _ => by simp [dictKeys])]
    simp
  have hinfod : h.msg_info_dict.foldl (fun a p => dictSet a p.1 p.2)
      ([] : List (String × Val)) = h.msg_info_dict := by
    rw [foldl_dictSet_append h.msg_info_dict hwf.info_nodup [] (fun k _ => by simp [dictKeys])]
    simp
  have hinfot : h.msg_info_dict.foldl (fun a p =>
      dictSet a p.1 ((dictGet? h.msg_info_dict_types p.1).getD ""))
      ([] : List (String × String)) = h.msg_info_dict_types := by
    rw [foldl_dictSet_keyfn (fun k => (dictGet? h.msg_info_dict_types k).getD "")
      h.msg_info_dict hwf.info_nodup [] (fun k _ => by simp [dictKeys])]
    rw [List.nil_append]
    exact types_rebuild h.msg_info_dict h.msg_info_dict_types hwf.info_types_keys
      hwf.info_nodup
  have hmultid : h.msg_info_multiple_dict.foldl (fun a p => dictSet a p.1 p.2)
      ([] : List (String × List (List Val))) = h.msg_info_multiple_dict := by
    rw [foldl_dictSet_append h.msg_info_multiple_dict hwf.multi_nodup []
      (fun k _ => by simp [dictKeys])]
    simp
  have hmultit : h.msg_info_multiple_dict.foldl (fun a p =>
      dictSet a p.1 ((dictGet? h.msg_info_multiple_dict_types p.1).getD ""))
      ([] : List (String × String)) = h.msg_info_multiple_dict_types := by
    rw [foldl_dictSet_keyfn (fun k => (dictGet? h.msg_info_multiple_dict_types k).getD "")
      h.msg_info_multiple_dict hwf.multi_nodup [] (fun k _ => by simp [dictKeys])]
    rw [List.nil_append]
    exact types_rebuild h.msg_info_multiple_dict h.msg_info_multiple_dict_types
      hwf.multi_types_keys hwf.multi_nodup
  have hinit : h.initial_parameters.foldl (fun a p => dictSet a p.1 p.2)
      ([] : List (String × Val)) = h.initial_parameters := by
    rw [foldl_dictSet_append h.initial_parameters hwf.initial_nodup []
      (fun k _ => by simp [dictKeys])]
    simp
  have hdefault :
      (h.default_parameters.flatMap (fun q => q.2.map (fun p =>
        DefaultParamRow.mk q.1 p.1 p.2 s.next_ulog_id))).foldl
        (fun acc r =>
          let inner := match dictGet? acc r.default_type with
            | some d => d
            | none => []
          dictSet acc r.default_type (dictSet inner r.key r.value))
        ([] : List (Nat × List (String × Val))) = h.default_parameters := by
    rw [defFold_all s.next_ulog_id h.default_parameters hwf.default_nodup
      hwf.default_nonempty hwf.default_inner_nodup [] (fun k _ => by simp [dictKeys])]
    simp
  show Handle.mk _ _ _ _ _ _ _ _ _ _ _ _ _ _ _ _ _ _ _ _ _ _ _ = _
  rw [loadedHandle]
  simp only [emptyHandle, htagged, hformats, hinfod, hinfot, hmultid, hmultit, hinit,
    hdefault, List.nil_append]

theorem get_dataset_fetch_none (h : Handle) (s : Store) (n : String) (m : Nat)
    (lazy c : Bool) :
    get_dataset_fetch h s n m lazy c none =
      { handle := h, result := fetchSpec s h.pk n m lazy, fetched := true } := by
  rw [get_dataset_fetch, fetchSpec]
  cases s.datasets.find? (fun r =>
      r.dataset_name = n && r.multi_id = m && some r.ulog_id = h.pk) with
  | none => rfl
  | some row => rfl

/-- C5 (amended): the digest of identical bytes via a path, via a closed
stream at any position, and via an open stream positioned at the start
all agree and equal the digest of the full content; an open stream not
at the start is read, without a rewind, from its current position. -/
theorem calc_sha256sum_sources (fs : FS) (nm : String) (content : List Nat)
    (hread : fs.read? nm = some content) :
    calc_sha256sum fs (some (LogSource.path nm)) = some (some content) ∧
    (∀ pos, calc_sha256sum fs (some (LogSource.stream (PyStream.mk nm pos true))) =
      some (some content)) ∧
    calc_sha256sum fs (some (LogSource.stream (PyStream.mk nm 0 false))) =
      some (some content) ∧
    (∀ pos, calc_sha256sum fs (some (LogSource.stream (PyStream.mk nm pos false))) =
      some (some (content.drop pos))) := by
  refine ⟨?_, fun pos => ?_, ?_, fun pos => ?_⟩
  · simp [calc_sha256sum, hread, hashFeed_eq]
  · simp [calc_sha256sum, hread, hashFeed_eq]
  · simp [calc_sha256sum, hread, hashFeed_eq]
  · simp [calc_sha256sum, hread, hashFeed_eq]

/-- C5 counterexample: the digest fed from an open stream positioned
past the start differs from the digest fed from the path, so the three
sources are not always equal as the claim states. -/
theorem calc_sha256sum_position_counterexample :
    calc_sha256sum [("f", [1, 2, 3])] (some (LogSource.stream (PyStream.mk "f" 1 false))) ≠
      calc_sha256sum [("f", [1, 2, 3])] (some (LogSource.path "f")) := by
  have h1 : calc_sha256sum [("f", [1, 2, 3])]
      (some (LogSource.stream (PyStream.mk "f" 1 false))) =
      some (some (hashFeed (List.drop 1 [1, 2, 3]))) := rfl
  have h2 : calc_sha256sum [("f", [1, 2, 3])] (some (LogSource.path "f")) =
      some (some (hashFeed [1, 2, 3])) := rfl
  rw [h1, h2, hashFeed_eq, hashFeed_eq]
  decide

/-- C6: a store whose version counter is below the expected schema
version makes construction fail with the schema-version error for every
combination of arguments, and the outcome does not depend on any table
of the store (two stores with the same low version counter behave
identically), so no table is read or written. -/
theorem schema_gate (s₁ s₂ : Store) (fs : FS) (decode : LogSource → Handle)
    (pk? : Option Nat) (lf? : Option LogSource) (lazy : Bool)
    (hv : s₁.user_version < SCHEMA_VERSION)
    (hsame : s₂.user_version = s₁.user_version) :
    dbinit s₁ fs decode pk? lf? lazy =
      Except.error (DBErr.schemaVersionTooOld s₁.user_version SCHEMA_VERSION) ∧
    dbinit s₂ fs decode pk? lf? lazy = dbinit s₁ fs decode pk? lf? lazy := by
  constructor
  · rw [dbinit, if_pos hv]
  · rw [dbinit, if_pos (by rw [hsame]; exact hv), dbinit, if_pos hv, hsame]

theorem loadFresh_no_row (s : Store) (pk : Nat) (lz : Bool)
    (hz : s.ulog.countP (fun r => some r.id = some pk) = 0) :
    loadFresh s pk lz = Except.error DBErr.notFound := by
  rw [loadFresh, load]
  rw [show (emptyHandle (some pk) lz).pk = some pk from rfl]
  rw [show exists_in_db s (some pk) = false by rw [exists_in_db, hz]; rfl]
  rfl

/-- C7: delete refuses a handle without an identity; with an identity it
succeeds, clears the identity (making a later save pass its
already-persisted check), removes the log row and every owned row,
including the rows keyed through deleted datasets, formats and
multi-info messages, and a subsequent load of the old identity fails. -/
theorem delete_contract (h : Handle) (s : Store) :
    (h.pk = none → (delete h s).result = Except.error DBErr.notFound ∧
      (delete h s).store = s ∧ (delete h s).handle = h) ∧
    (∀ pk, h.pk = some pk →
      (delete h s).result = Except.ok () ∧
      (delete h s).handle.pk = none ∧
      (∀ r ∈ (delete h s).store.ulog, r.id ≠ pk) ∧
      (∀ r ∈ (delete h s).store.offsets, r.ulog_id ≠ pk) ∧
      (∀ r ∈ (delete h s).store.datasets, r.ulog_id ≠ pk) ∧
      (∀ f ∈ (delete h s).store.fields, f.dataset_id ∉
        ((s.datasets.filter (fun r => r.ulog_id = pk)).map (fun r => r.id))) ∧
      (∀ r ∈ (delete h s).store.dropouts, r.ulog_id ≠ pk) ∧
      (∀ r ∈ (delete h s).store.loggings, r.ulog_id ≠ pk) ∧
      (∀ r ∈ (delete h s).store.loggings_tagged, r.ulog_id ≠ pk) ∧
      (∀ r ∈ (delete h s).store.formats, r.ulog_id ≠ pk) ∧
      (∀ f ∈ (delete h s).store.format_fields, f.message_id ∉
        ((s.formats.filter (fun r => r.ulog_id = pk)).map (fun r => r.id))) ∧
      (∀ r ∈ (delete h s).store.infos, r.ulog_id ≠ pk) ∧
      (∀ r ∈ (delete h s).store.info_multiples, r.ulog_id ≠ pk) ∧
      (∀ r ∈ (delete h s).store.info_lists, r.message_id ∉
        ((s.info_multiples.filter (fun r => r.ulog_id = pk)).map (fun r => r.id))) ∧
      (∀ r ∈ (delete h s).store.info_elements, r.list_id ∉
        ((s.info_lists.filter (fun l => l.message_id ∈
          (s.info_multiples.filter (fun r => r.ulog_id = pk)).map
            (fun r => r.id))).map (fun l => l.id))) ∧
      (∀ r ∈ (delete h s).store.initial_params, r.ulog_id ≠ pk) ∧
      (∀ r ∈ (delete h s).store.default_params, r.ulog_id ≠ pk) ∧
      (∀ r ∈ (delete h s).store.changed_params, r.ulog_id ≠ pk) ∧
      (∀ lz, loadFresh (delete h s).store pk lz = Except.error DBErr.notFound)) := by
  constructor
  · intro hpk
    rw [delete, hpk]
    exact ⟨rfl, rfl, rfl⟩
  · intro pk hpk
    rw [delete, hpk]
    refine ⟨rfl, rfl, ?_, ?_, ?_, ?_, ?_, ?_, ?_, ?_, ?_, ?_, ?_, ?_, ?_, ?_, ?_, ?_, ?_⟩
    all_goals try
      (intro r hr
       have := (List.mem_filter.mp hr).2
       simp only [Bool.not_eq_true', decide_eq_false_iff_not] at this
       exact this)
    intro lz
    refine loadFresh_no_row _ pk lz ?_
    show (s.ulog.filter (fun r => !(r.id = pk))).countP
      (fun r => some r.id = some pk) = 0
    rw [List.countP_eq_zero]
    intro r hr
    have := (List.mem_filter.mp hr).2
    simp only [Bool.not_eq_true', decide_eq_false_iff_not] at this
    simp [this]

/-- C2: saving a handle without identity whose content digest is already
present under identity `pkid` fails with the duplicate-content error
carrying `pkid`, adopts `pkid` onto the handle, leaves the store
untouched, and exactly one log row for that digest exists afterwards. -/
theorem save_dedup (h : Handle) (s : Store) (ajson : Bool) (d : List Nat) (pkid : Nat)
    (hpk : h.pk = none) (hsha : h.sha256sum = some d)
    (hcount : s.ulog.countP (fun r => r.sha256sum = some d) = 1)
    (hrow : ∃ r ∈ s.ulog, r.sha256sum = some d ∧ r.id = pkid) :
    (save h s ajson).result = Except.error (DBErr.duplicateContent pkid) ∧
    (save h s ajson).handle.pk = some pkid ∧
    (save h s ajson).store = s ∧
    (save h s ajson).store.ulog.countP (fun r => r.sha256sum = some d) = 1 := by
  obtain ⟨r, hrmem, hrsha, hrid⟩ := hrow
  have hfind : primary_key_from_sha256sum s h.sha256sum = some pkid := by
    rw [hsha, primary_key_from_sha256sum]
    rw [find?_of_countP_one _ s.ulog r hcount hrmem (by simp [hrsha])]
    simp [hrid]
  have hsome : h.pk.isSome = false := by rw [hpk]; rfl
  refine ⟨?_, ?_, ?_, ?_⟩ <;>
    simp [save, hsome, hfind, hcount]

/-- C3: a save that fails for any reason — already persisted, duplicate
content, or an error raised while writing rows — leaves the store
exactly as it was; a successful save makes every row of the log visible
in one step, as the fully extended store. -/
theorem save_atomicity (h : Handle) (s : Store) (ajson : Bool) :
    ((save h s ajson).result.isOk = false → (save h s ajson).store = s) ∧
    (HandleWF h → h.pk = none → primary_key_from_sha256sum s h.sha256sum = none →
      (save h s ajson).result = Except.ok s.next_ulog_id ∧
      (save h s ajson).store = savedStore h s ajson) := by
  constructor
  · intro herr
    by_cases hpk : h.pk.isSome
    · simp [save, hpk]
    · rw [Bool.not_eq_true] at hpk
      cases hdup : primary_key_from_sha256sum s h.sha256sum with
      | some pkid => simp [save, hpk, hdup]
      | none =>
        cases hds : saveDatasets ajson s.next_ulog_id h.data_list s.next_dataset_id with
        | error e => simp [save, hpk, hdup, hds]
        | ok t1 =>
          obtain ⟨drows, frows, did'⟩ := t1
          rcases hsf : saveFormats s.next_ulog_id h.message_formats s.next_format_id with
            ⟨fmrows, ffrows, fid'⟩
          cases hsi : saveInfos s.next_ulog_id h.msg_info_dict_types h.msg_info_dict with
          | error e => simp [save, hpk, hdup, hds, hsf, hsi]
          | ok irows =>
            cases hsm : saveInfoMultiples s.next_ulog_id h.msg_info_multiple_dict_types
                h.msg_info_multiple_dict s.next_info_multiple_id s.next_info_list_id with
            | error e => simp [save, hpk, hdup, hds, hsf, hsi, hsm]
            | ok t2 =>
              obtain ⟨mrows, lrows, erows, mid', lid'⟩ := t2
              exfalso
              simp only [save, hpk, hdup, hds, hsf, hsi, hsm, Bool.false_eq_true,
                if_false] at herr
              exact Bool.noConfusion (show true = false from herr)
  · intro hwf hpk hdup
    rw [save_ok h s ajson hwf hpk hdup]
    exact ⟨rfl, rfl⟩

/-- C4: with caching on, a `(name, multi)` pair absent from the cached
dataset list triggers a real fetch that returns the store's dataset and
does not insert anything into the cache, so an immediate repetition
fetches again; a pair present in the list (without data, eagerly
requested) triggers a real fetch whose result replaces that entry in
place. -/
theorem get_dataset_cache_asymmetry (h : Handle) (s : Store) (n : String) (m : Nat)
    (lazy : Bool) :
    (h.data_list.find? (dsMatch n m) = none →
      (get_dataset h s n m lazy true).handle = h ∧
      (get_dataset h s n m lazy true).fetched = true ∧
      (get_dataset h s n m lazy true).result = fetchSpec s h.pk n m lazy ∧
      (get_dataset (get_dataset h s n m lazy true).handle s n m lazy true).fetched = true) ∧
    (∀ ex row, h.data_list.find? (dsMatch n m) = some ex → ex.data = [] →
      s.datasets.find? (fun r =>
        r.dataset_name = n && r.multi_id = m && some r.ulog_id = h.pk) = some row →
      ∃ u, (get_dataset h s n m false true).handle =
          { h with data_list := replaceFirst (dsMatch n m) u h.data_list } ∧
        (get_dataset h s n m false true).result = Except.ok u ∧
        (get_dataset h s n m false true).fetched = true) := by
  constructor
  · intro hfind
    have hgd : get_dataset h s n m lazy true =
        { handle := h, result := fetchSpec s h.pk n m lazy, fetched := true } := by
      rw [get_dataset, hfind]
      exact get_dataset_fetch_none h s n m lazy true
    refine ⟨by rw [hgd], by rw [hgd], by rw [hgd], ?_⟩
    rw [hgd]
    show (get_dataset h s n m lazy true).fetched = true
    rw [hgd]
  · intro ex row hfind hdata hrow
    have hgd : get_dataset h s n m false true =
        get_dataset_fetch h s n m false true (some ex) := by
      rw [get_dataset, hfind]
      simp [hdata]
    have hfetch : get_dataset_fetch h s n m false true (some ex) =
        { handle :=
            { h with
                data_list :=
                  replaceFirst (dsMatch n m)
                    (DataSet.mk ex.name ex.multi_id row.message_id row.timestamp_index
                      ((s.fields.filter (fun f => f.dataset_id = row.id)).map
                        (fun f => FieldData.mk f.topic_name f.data_type))
                      ((s.fields.filter (fun f => f.dataset_id = row.id)).foldl
                        (fun acc f => dictSet acc f.topic_name f.value_array) []))
                    h.data_list }
          result := Except.ok
            (DataSet.mk ex.name ex.multi_id row.message_id row.timestamp_index
              ((s.fields.filter (fun f => f.dataset_id = row.id)).map
                (fun f => FieldData.mk f.topic_name f.data_type))
              ((s.fields.filter (fun f => f.dataset_id = row.id)).foldl
                (fun acc f => dictSet acc f.topic_name f.value_array) []))
          fetched := true } := by
      rw [get_dataset_fetch, hrow]
      simp
    refine ⟨DataSet.mk ex.name ex.multi_id row.message_id row.timestamp_index
        ((s.fields.filter (fun f => f.dataset_id = row.id)).map
          (fun f => FieldData.mk f.topic_name f.data_type))
        ((s.fields.filter (fun f => f.dataset_id = row.id)).foldl
          (fun acc f => dictSet acc f.topic_name f.value_array) []), ?_, ?_, ?_⟩
    · rw [hgd, hfetch]
    · rw [hgd, hfetch]
    · rw [hgd, hfetch]

/-- A store as `ulog_migratedb` leaves a fresh database: all tables
empty, every rowid counter at one, the version counter at `v`. -/
def emptyStore (v : Nat) : Store :=
  { user_version := v, ulog := [], offsets := [], datasets := [], fields := [],
    dropouts := [], loggings := [], loggings_tagged := [], formats := [],
    format_fields := [], infos := [], info_multiples := [], info_lists := [],
    info_elements := [], initial_params := [], default_params := [],
    changed_params := [], next_ulog_id := 1, next_dataset_id := 1,
    next_format_id := 1, next_info_multiple_id := 1, next_info_list_id := 1 }

/-- A small decoded log exercising every section: two multi instances of
one dataset, a dropout, plain and tagged messages, a format, scalar and
multi-valued info entries, and all three parameter kinds. -/
def sampleLog : Handle :=
  { emptyHandle none false with
    sha256sum := some [1, 2, 3]
    file_version := 1
    start_timestamp := 10
    last_timestamp := 99
    compat_flags := [0, 1, 0, 0, 0, 0, 0, 0]
    incompat_flags := [0, 0, 0, 0, 0, 0, 0, 0]
    sync_seq_cnt := 2
    has_sync := true
    appended_offsets := [100, 200]
    data_list := [
      { name := "imu", multi_id := 0, msg_id := 7, timestamp_idx := 0,
        field_data := [⟨"timestamp", "uint64_t"⟩, ⟨"value", "float"⟩],
        data := [("timestamp", [Val.int 1, Val.int 2]),
                 ("value", [Val.real 5, Val.real 6])] },
      { name := "imu", multi_id := 1, msg_id := 8, timestamp_idx := 0,
        field_data := [⟨"timestamp", "uint64_t"⟩, ⟨"value", "float"⟩],
        data := [("timestamp", [Val.int 3]), ("value", [Val.real 9])] }]
    dropouts := [⟨5, 6⟩]
    logged_messages := [⟨1, 2, "hello"⟩]
    logged_messages_tagged := [(4, [⟨1, 4, 3, "tagged"⟩])]
    message_formats := [("imu",
      ⟨"imu", [("uint64_t", 0, "timestamp"), ("float", 0, "value")]⟩)]
    msg_info_dict := [("ver", Val.str "v1")]
    msg_info_dict_types := [("ver", "char[2]")]
    msg_info_multiple_dict := [("perf", [[Val.str "a", Val.str "b"], [Val.str "c"]])]
    msg_info_multiple_dict_types := [("perf", "char[1]")]
    initial_parameters := [("P1", Val.int 3)]
    default_parameters := [(1, [("P1", Val.int 4)])]
    changed_parameters := [(50, "P1", Val.int 5)] }

/-- A dataset named "b": with `dsA` it makes a dataset list that is not
in `(name, multi id)` order. -/
def dsB : DataSet :=
  { name := "b", multi_id := 0, msg_id := 1, timestamp_idx := 0,
    field_data := [⟨"timestamp", "uint64_t"⟩],
    data := [("timestamp", [Val.int 1])] }

/-- A dataset named "a", sorting before `dsB`. -/
def dsA : DataSet :=
  { name := "a", multi_id := 0, msg_id := 2, timestamp_idx := 0,
    field_data := [⟨"timestamp", "uint64_t"⟩],
    data := [("timestamp", [Val.int 2])] }

/-- A decoded log whose dataset list is not sorted by `(name, multi id)`. -/
def unsortedLog : Handle :=
  { emptyHandle none false with
    sha256sum := some [9]
    data_list := [dsB, dsA] }

theorem sampleLog_ds_wf : ∀ d ∈ sampleLog.data_list, DataSetWF d := by
  intro d hd
  rcases List.mem_cons.mp hd with h1 | h2
  · subst h1; exact ⟨by decide, by decide, by decide⟩
  rcases List.mem_cons.mp h2 with h3 | h4
  · subst h3; exact ⟨by decide, by decide, by decide⟩
  exact absurd h4 (List.not_mem_nil d)

theorem sampleLog_wf : HandleWF sampleLog :=
  ⟨by decide, by decide, sampleLog_ds_wf, by decide, by decide, by decide, by decide,
   by decide, by decide, by decide, by decide, by decide, by decide, by decide,
   by decide, by decide, by decide, by decide⟩

theorem emptyStore_wf (v : Nat) : StoreWF (emptyStore v) := by
  constructor <;> (intro r hr; exact absurd hr (List.not_mem_nil r))

theorem sampleLog_sorted : dsSorted sampleLog.data_list := by
  unfold dsSorted
  refine List.Pairwise.cons ?_ (List.Pairwise.cons ?_ List.Pairwise.nil)
  · intro b hb
    rcases List.mem_cons.mp hb with h1 | h2
    · subst h1; right; exact ⟨rfl, by decide⟩
    · exact absurd h2 (List.not_mem_nil b)
  · intro c hc
    exact absurd hc (List.not_mem_nil c)

/-- A field row with its write-only `ValueJson` column blanked: exactly
the columns the read path can observe of a `ULogField` row. -/
def stripJson (f : FieldRow) : FieldRow :=
  { f with value_json := none }

theorem filter_comp_of_map_eq {α β : Type} (g : α → β) (q : β → Bool) :
    ∀ (l₁ l₂ : List α), l₁.map g = l₂.map g →
      (l₁.filter (fun a => q (g a))).map g = (l₂.filter (fun a => q (g a))).map g := by
  intro l₁ l₂ h
  rw [show (fun a => q (g a)) = q ∘ g from rfl]
  rw [← List.filter_map, ← List.filter_map, h]

theorem map_comp_of_map_eq {α β γ : Type} (g : α → β) (k : β → γ)
    (l₁ l₂ : List α) (h : l₁.map g = l₂.map g) :
    l₁.map (fun a => k (g a)) = l₂.map (fun a => k (g a)) := by
  rw [show (fun a => k (g a)) = k ∘ g from rfl, ← List.map_map, ← List.map_map, h]

theorem foldl_comp_of_map_eq {α β γ : Type} (g : α → β) (step : γ → β → γ) (init : γ)
    (l₁ l₂ : List α) (h : l₁.map g = l₂.map g) :
    l₁.foldl (fun acc a => step acc (g a)) init =
      l₂.foldl (fun acc a => step acc (g a)) init := by
  rw [← List.foldl_map g step l₁ init, ← List.foldl_map g step l₂ init, h]

theorem fieldRowsSpec_strip (ajson : Bool) :
    ∀ (dl : List DataSet) (did : Nat),
      (fieldRowsSpec ajson dl did).map stripJson =
        (fieldRowsSpec false dl did).map stripJson := by
  intro dl
  induction dl with
  | nil => intro did; rfl
  | cons d rest ih =>
    intro did
    simp only [fieldRowsSpec, List.map_append, List.map_map, ih]
    rw [show (stripJson ∘ fieldRowSpec ajson did d) =
      (stripJson ∘ fieldRowSpec false did d) from funext (fun f => rfl)]

theorem get_dataset_fetch_congr (h : Handle) (s₁ s₂ : Store)
    (hds : s₁.datasets = s₂.datasets)
    (hf : s₁.fields.map stripJson = s₂.fields.map stripJson)
    (n : String) (m : Nat) (lazy c : Bool) (e? : Option DataSet) :
    get_dataset_fetch h s₁ n m lazy c e? = get_dataset_fetch h s₂ n m lazy c e? := by
  rw [get_dataset_fetch, get_dataset_fetch, hds]
  cases s₂.datasets.find? (fun r =>
      r.dataset_name = n && r.multi_id = m && some r.ulog_id = h.pk) with
  | none => rfl
  | some row =>
    cases lazy with
    | true => rfl
    | false =>
      have hfilter : (s₁.fields.filter (fun f => f.dataset_id = row.id)).map stripJson =
          (s₂.fields.filter (fun f => f.dataset_id = row.id)).map stripJson :=
        filter_comp_of_map_eq stripJson (fun b => decide (b.dataset_id = row.id))
          s₁.fields s₂.fields hf
      have hfields : (s₁.fields.filter (fun f => f.dataset_id = row.id)).map
          (fun f => FieldData.mk f.topic_name f.data_type) =
        (s₂.fields.filter (fun f => f.dataset_id = row.id)).map
          (fun f => FieldData.mk f.topic_name f.data_type) :=
        map_comp_of_map_eq stripJson (fun b => FieldData.mk b.topic_name b.data_type)
          _ _ hfilter
      have hdata : (s₁.fields.filter (fun f => f.dataset_id = row.id)).foldl
          (fun acc f => dictSet acc f.topic_name f.value_array) [] =
        (s₂.fields.filter (fun f => f.dataset_id = row.id)).foldl
          (fun acc f => dictSet acc f.topic_name f.value_array) [] :=
        foldl_comp_of_map_eq stripJson
          (fun acc b => dictSet acc b.topic_name b.value_array) [] _ _ hfilter
      cases e? with
      | none => simp [hfields, hdata]
      | some ex => cases c with
        | true => simp [hfields, hdata]
        | false => simp [hfields, hdata]

theorem get_dataset_congr (h : Handle) (s₁ s₂ : Store)
    (hds : s₁.datasets = s₂.datasets)
    (hf : s₁.fields.map stripJson = s₂.fields.map stripJson)
    (n : String) (m : Nat) (lazy c : Bool) :
    get_dataset h s₁ n m lazy c = get_dataset h s₂ n m lazy c := by
  rw [get_dataset, get_dataset]
  cases h.data_list.find? (dsMatch n m) with
  | none => exact get_dataset_fetch_congr h s₁ s₂ hds hf n m lazy c none
  | some ex =>
    show (if (c && (lazy || !ex.data.isEmpty)) = true then
        ({ handle := h, result := Except.ok ex, fetched := false } : GDResult)
      else get_dataset_fetch h s₁ n m lazy c (some ex)) =
      (if (c && (lazy || !ex.data.isEmpty)) = true then
        ({ handle := h, result := Except.ok ex, fetched := false } : GDResult)
      else get_dataset_fetch h s₂ n m lazy c (some ex))
    cases hcc : c && (lazy || !ex.data.isEmpty) with
    | true => rfl
    | false => exact get_dataset_fetch_congr h s₁ s₂ hds hf n m lazy c (some ex)

/-- C1 (amended): a decoded log with no identity and an unseen content
digest, whose dataset list is in `(name, multi id)` order, round-trips:
save succeeds with the next identity, and a fresh non-lazy load of that
identity returns a handle element-wise equal to the log across header
metadata, offsets, datasets, dropouts, plain and tagged messages,
formats, info entries and all three parameter histories. -/
theorem save_load_roundtrip (h : Handle) (s : Store) (ajson : Bool)
    (hwf : HandleWF h) (hswf : StoreWF s) (hsorted : dsSorted h.data_list)
    (hpk : h.pk = none)
    (hdup : primary_key_from_sha256sum s h.sha256sum = none) :
    (save h s ajson).result = Except.ok s.next_ulog_id ∧
    loadFresh (save h s ajson).store s.next_ulog_id false =
      Except.ok (loadedHandle h s.next_ulog_id false) ∧
    contentEq (loadedHandle h s.next_ulog_id false) h := by
  rw [save_ok h s ajson hwf hpk hdup]
  refine ⟨rfl, load_of_saved h s ajson false hwf hswf hsorted, ?_⟩
  refine ⟨rfl, rfl, rfl, rfl, rfl, rfl, rfl, rfl, rfl, ?_, rfl, rfl, rfl, rfl, rfl,
    rfl, rfl, rfl, rfl, rfl, rfl⟩
  show h.data_list.map (fun d =>
    if false then DataSet.mk d.name d.multi_id d.msg_id d.timestamp_idx [] [] else d) =
    h.data_list
  simp

/-- C1 counterexample: a log whose dataset list is not in
`(name, multi id)` order does not round-trip even though its digest is
new and save succeeds — load returns the datasets sorted by that key,
so the loaded handle is not element-wise equal to the saved log. -/
theorem save_load_roundtrip_counterexample :
    (save unsortedLog (emptyStore 5) false).result = Except.ok 1 ∧
    ∃ h', loadFresh (save unsortedLog (emptyStore 5) false).store 1 false =
        Except.ok h' ∧ h'.data_list ≠ unsortedLog.data_list := by
  refine ⟨rfl, { loadedHandle unsortedLog 1 false with data_list := [dsA, dsB] },
    by decide, by decide⟩

/-- C8: a log saved with the queryable JSON encoding enabled produces a
store from which a fresh load returns exactly the same handle, and from
which get_dataset returns exactly the same result for every handle and
request, as the store produced with the encoding disabled: reads decode
the packed binary column only. -/
theorem reads_independent_of_json (h : Handle) (s : Store) (lz : Bool)
    (hwf : HandleWF h) (hswf : StoreWF s) (hsorted : dsSorted h.data_list) :
    loadFresh (savedStore h s true) s.next_ulog_id lz =
      loadFresh (savedStore h s false) s.next_ulog_id lz ∧
    ∀ (h0 : Handle) (n : String) (m : Nat) (lazy c : Bool),
      get_dataset h0 (savedStore h s true) n m lazy c =
        get_dataset h0 (savedStore h s false) n m lazy c := by
  constructor
  · rw [load_of_saved h s true lz hwf hswf hsorted,
      load_of_saved h s false lz hwf hswf hsorted]
  · intro h0 n m lazy c
    refine get_dataset_congr h0 (savedStore h s true) (savedStore h s false)
      rfl ?_ n m lazy c
    show (s.fields ++ fieldRowsSpec true h.data_list s.next_dataset_id).map stripJson =
      (s.fields ++ fieldRowsSpec false h.data_list s.next_dataset_id).map stripJson
    rw [List.map_append, List.map_append,
      fieldRowsSpec_strip true h.data_list s.next_dataset_id]

/-- C9 (amended): a lazy load of a saved log yields one dataset entry
per stored `(name, multi id)` pair, carrying the pair with its message
id and timestamp index, but with an empty field-declaration list and
empty data: the `ULogField` query is skipped entirely when lazy, so the
Field declarations are deferred along with the column data. -/
theorem lazy_load_metadata (h : Handle) (s : Store) (ajson : Bool)
    (hwf : HandleWF h) (hswf : StoreWF s) (hsorted : dsSorted h.data_list) :
    loadFresh (savedStore h s ajson) s.next_ulog_id true =
      Except.ok (loadedHandle h s.next_ulog_id true) ∧
    (loadedHandle h s.next_ulog_id true).data_list =
      h.data_list.map (fun d =>
        DataSet.mk d.name d.multi_id d.msg_id d.timestamp_idx [] []) := by
  refine ⟨load_of_saved h s ajson true hwf hswf hsorted, ?_⟩
  show h.data_list.map (fun d =>
    if true then DataSet.mk d.name d.multi_id d.msg_id d.timestamp_idx [] [] else d) = _
  simp

/-- C9 counterexample: lazily loading a saved log with declared fields
yields dataset entries whose field-declaration list is empty, although
the store holds `ULogField` rows for them — the entries do not carry
their Field declarations as the claim states. -/
theorem lazy_load_metadata_counterexample :
    (save sampleLog (emptyStore 5) false).store.fields ≠ [] ∧
    ∃ h', loadFresh (save sampleLog (emptyStore 5) false).store 1 true =
        Except.ok h' ∧
      h'.data_list ≠ [] ∧ ∀ d ∈ h'.data_list, d.field_data = [] := by
  refine ⟨by decide, loadedHandle sampleLog 1 true, by decide, by decide, by decide⟩

/-- C10: loading twice into the same handle doubles the appended
offsets, dropouts, plain logged messages, each tag's tagged messages and
the changed-parameter history, while the dataset list is rebuilt from
scratch and stays equal: load appends to the in-memory lists without
clearing them. -/
theorem load_not_idempotent (h : Handle) (s : Store) (ajson : Bool)
    (hwf : HandleWF h) (hswf : StoreWF s) (hsorted : dsSorted h.data_list) :
    loadFresh (savedStore h s ajson) s.next_ulog_id false =
      Except.ok (loadedHandle h s.next_ulog_id false) ∧
    ∃ h2, load (loadedHandle h s.next_ulog_id false) (savedStore h s ajson) false =
        Except.ok h2 ∧
      h2.appended_offsets = h.appended_offsets ++ h.appended_offsets ∧
      h2.dropouts = h.dropouts ++ h.dropouts ∧
      h2.logged_messages = h.logged_messages ++ h.logged_messages ∧
      h2.logged_messages_tagged =
        h.logged_messages_tagged.map (fun p => (p.1, p.2 ++ p.2)) ∧
      h2.changed_parameters = h.changed_parameters ++ h.changed_parameters ∧
      h2.data_list = h.data_list := by
  refine ⟨load_of_saved h s ajson false hwf hswf hsorted, ?_⟩
  rw [load_saved_eq h s ajson (loadedHandle h s.next_ulog_id false) false hwf hswf
    hsorted rfl]
  refine ⟨_, rfl, rfl, rfl, rfl, ?_, rfl, ?_⟩
  · have hget : ∀ p ∈ h.logged_messages_tagged,
        dictGet? h.logged_messages_tagged p.1 = some p.2 :=
      fun p hp => dictGet?_of_mem_nodup h.logged_messages_tagged p hp hwf.tagged_nodup
    have h1 := tagFold_update s.next_ulog_id h.logged_messages_tagged hwf.tagged_tags
      h.logged_messages_tagged hget hwf.tagged_nodup
    have h2 := foldl_dictSet_inplace (fun l => l ++ l) h.logged_messages_tagged []
      hwf.tagged_nodup (fun k _ => by simp [dictKeys])
    show (h.logged_messages_tagged.flatMap (fun p => p.2.map (fun m =>
        LoggingTaggedRow.mk m.log_level m.timestamp p.1 m.message s.next_ulog_id))).foldl
        (fun acc r =>
          let old := match dictGet? acc r.tag with
            | some msgs => msgs
            | none => []
          dictSet acc r.tag
            (old ++ [MessageLoggingTagged.mk r.log_level r.tag r.timestamp r.message]))
        h.logged_messages_tagged =
      h.logged_messages_tagged.map (fun p => (p.1, p.2 ++ p.2))
    rw [h1]
    simpa using h2
  · show h.data_list.map (fun d =>
      if false then DataSet.mk d.name d.multi_id d.msg_id d.timestamp_idx [] [] else d) =
      h.data_list
    simp

/-- A handle holding only a content digest, for the dedup check. -/
def dupHandle : Handle := { emptyHandle none false with sha256sum := some [9, 9] }

/-- A log row already persisted under identity 7 with that digest. -/
def dupRow : ULogRow :=
  { id := 7, file_version := 1, start_timestamp := 0, last_timestamp := 5,
    compat_flags := "", incompat_flags := "", sync_count := 0, has_sync := false,
    sha256sum := some [9, 9] }

/-- A store already holding `dupRow`. -/
def dupStore : Store := { emptyStore 5 with ulog := [dupRow], next_ulog_id := 8 }

/-- C1 witness: the round-trip theorem at the sample log and a fresh
store. -/
theorem save_load_roundtrip_witness :
    (save sampleLog (emptyStore 5) false).result = Except.ok 1 ∧
    loadFresh (save sampleLog (emptyStore 5) false).store 1 false =
      Except.ok (loadedHandle sampleLog 1 false) ∧
    contentEq (loadedHandle sampleLog 1 false) sampleLog :=
  save_load_roundtrip sampleLog (emptyStore 5) false sampleLog_wf (emptyStore_wf 5)
    sampleLog_sorted rfl rfl

/-- C2 witness: the dedup theorem at a handle whose digest is already
persisted under identity 7. -/
theorem save_dedup_witness :
    (save dupHandle dupStore false).result = Except.error (DBErr.duplicateContent 7) ∧
    (save dupHandle dupStore false).handle.pk = some 7 ∧
    (save dupHandle dupStore false).store = dupStore ∧
    (save dupHandle dupStore false).store.ulog.countP
      (fun r => r.sha256sum = some [9, 9]) = 1 :=
  save_dedup dupHandle dupStore false [9, 9] 7 rfl rfl (by decide)
    ⟨dupRow, by decide, rfl, rfl⟩

/-- C5 witness: the digest-source theorem at a one-file filesystem. -/
theorem calc_sha256sum_sources_witness :
    calc_sha256sum [("f", [1, 2, 3])] (some (LogSource.path "f")) =
      some (some [1, 2, 3]) ∧
    (∀ pos, calc_sha256sum [("f", [1, 2, 3])]
        (some (LogSource.stream (PyStream.mk "f" pos true))) = some (some [1, 2, 3])) ∧
    calc_sha256sum [("f", [1, 2, 3])]
        (some (LogSource.stream (PyStream.mk "f" 0 false))) = some (some [1, 2, 3]) ∧
    (∀ pos, calc_sha256sum [("f", [1, 2, 3])]
        (some (LogSource.stream (PyStream.mk "f" pos false))) =
      some (some (List.drop pos [1, 2, 3]))) :=
  calc_sha256sum_sources [("f", [1, 2, 3])] "f" [1, 2, 3] rfl

/-- C6 witness: the schema gate at a fresh store with version counter 4. -/
theorem schema_gate_witness :
    dbinit (emptyStore 4) [] (fun _ => emptyHandle none false) (some 1) none false =
      Except.error (DBErr.schemaVersionTooOld 4 SCHEMA_VERSION) ∧
    dbinit (emptyStore 4) [] (fun _ => emptyHandle none false) (some 1) none false =
      dbinit (emptyStore 4) [] (fun _ => emptyHandle none false) (some 1) none false :=
  schema_gate (emptyStore 4) (emptyStore 4) [] (fun _ => emptyHandle none false)
    (some 1) none false (by decide) rfl

/-- C8 witness: the JSON-independence theorem at the sample log and a
fresh store. -/
theorem reads_independent_of_json_witness :
    loadFresh (savedStore sampleLog (emptyStore 5) true) 1 false =
      loadFresh (savedStore sampleLog (emptyStore 5) false) 1 false ∧
    ∀ (h0 : Handle) (n : String) (m : Nat) (lazy c : Bool),
      get_dataset h0 (savedStore sampleLog (emptyStore 5) true) n m lazy c =
        get_dataset h0 (savedStore sampleLog (emptyStore 5) false) n m lazy c :=
  reads_independent_of_json sampleLog (emptyStore 5) false sampleLog_wf
    (emptyStore_wf 5) sampleLog_sorted

/-- C9 witness: the lazy-load theorem at the sample log and a fresh
store. -/
theorem lazy_load_metadata_witness :
    loadFresh (savedStore sampleLog (emptyStore 5) false) 1 true =
      Except.ok (loadedHandle sampleLog 1 true) ∧
    (loadedHandle sampleLog 1 true).data_list =
      sampleLog.data_list.map (fun d =>
        DataSet.mk d.name d.multi_id d.msg_id d.timestamp_idx [] []) :=
  lazy_load_metadata sampleLog (emptyStore 5) false sampleLog_wf (emptyStore_wf 5)
    sampleLog_sorted

/-- C10 witness: the double-load theorem at the sample log and a fresh
store. -/
theorem load_not_idempotent_witness :
    loadFresh (savedStore sampleLog (emptyStore 5) false) 1 false =
      Except.ok (loadedHandle sampleLog 1 false) ∧
    ∃ h2, load (loadedHandle sampleLog 1 false) (savedStore sampleLog (emptyStore 5) false)
        false = Except.ok h2 ∧
      h2.appended_offsets = sampleLog.appended_offsets ++ sampleLog.appended_offsets ∧
      h2.dropouts = sampleLog.dropouts ++ sampleLog.dropouts ∧
      h2.logged_messages = sampleLog.logged_messages ++ sampleLog.logged_messages ∧
      h2.logged_messages_tagged =
        sampleLog.logged_messages_tagged.map (fun p => (p.1, p.2 ++ p.2)) ∧
      h2.changed_parameters = sampleLog.changed_parameters ++ sampleLog.changed_parameters ∧
      h2.data_list = sampleLog.data_list :=
  load_not_idempotent sampleLog (emptyStore 5) false sampleLog_wf (emptyStore_wf 5)
    sampleLog_sorted

end PyulogDb
